import Mathlib

/-!
Shallow embedding of the ruscompile compiler (src/src/{lexer,parser,semantic,codegen}.rs
and the pipeline in src/src/lib.rs), together with theorems settling the frozen claims.

Rust strings are modelled as `List Char` (one list element per byte; the sources the
claims exercise are ASCII, and the newline-counting used for locations agrees between
bytes and chars because 0x0A never occurs inside a multi-byte UTF-8 sequence).
Error values keep the variant and the location of `error.rs`'s `CompilerError`; the
human-readable message strings are omitted, since no control flow depends on them.
-/

namespace RusCompile

/-- Source location: 1-based line and column plus byte length (`ast.rs`, `Location`). -/
structure Location where
  line : Nat
  column : Nat
  length : Nat
deriving DecidableEq, Repr

/-- `error.rs`'s `CompilerError`, keeping kind and location; message text omitted.
The file-I/O variants belong to the excluded CLI layer and are not modelled.
`internalErr` additionally stands in for fuel exhaustion in the fuelled recursions
below, a case no run in this development reaches. -/
inductive CompilerError where
  | lexErr (line column : Nat)
  | synErr (line column : Nat)
  | semErr (line column : Option Nat)
  | typeErr (line column : Option Nat)
  | cgErr
  | internalErr
deriving DecidableEq, Repr

abbrev CompilerResult (α : Type) := Except CompilerError α

/-- The language's types (`ast.rs`, `Type`); named `Ty` to avoid Lean's `Type`. -/
inductive Ty where
  | int
  | float
  | bool
  | string
  | void
  | function (parameters : List Ty) (returnType : Ty)
deriving Repr

mutual

/-- Structural equality of types, the `PartialEq` derive on `ast.rs`'s `Type`. -/
def Ty.beq : Ty → Ty → Bool
  | .int, .int => true
  | .float, .float => true
  | .bool, .bool => true
  | .string, .string => true
  | .void, .void => true
  | .function p1 r1, .function p2 r2 => Ty.beqList p1 p2 && Ty.beq r1 r2
  | _, _ => false

def Ty.beqList : List Ty → List Ty → Bool
  | [], [] => true
  | x :: xs, y :: ys => Ty.beq x y && Ty.beqList xs ys
  | _, _ => false

end

instance : BEq Ty := ⟨Ty.beq⟩

/-- `ast.rs`, `Literal`. The `f64` payload of `Float` is kept as its source text:
no claim inspects a floating-point value, and IEEE arithmetic is not modelled. -/
inductive Lit where
  | integer (n : Int)
  | float (txt : String)
  | boolean (b : Bool)
  | string (s : String)
deriving DecidableEq, Repr

/-- `lexer.rs`, `Token`. The `Error` catch-all variant of the logos enum is represented
by the `Lexeme.err` outcome of the scanner rather than by a token constructor. -/
inductive Token where
  | integer (n : Int)
  | float (txt : String)
  | string (s : String)
  | boolean (b : Bool)
  | identifier (s : String)
  | plus
  | minus
  | star
  | slash
  | percent
  | equal
  | notEqual
  | lessThan
  | lessThanEqual
  | greaterThan
  | greaterThanEqual
  | and
  | or
  | not
  | assign
  | leftParen
  | rightParen
  | leftBrace
  | rightBrace
  | leftBracket
  | rightBracket
  | semicolon
  | comma
  | dot
  | kwIf
  | kwElse
  | kwWhile
  | kwFor
  | kwReturn
  | kwVar
  | kwFunc
  | kwInt
  | kwFloatType
  | kwBool
  | kwStringType
  | kwVoid
  | colon
  | arrow
  | eof
deriving DecidableEq, Repr

/-- Mirrors `std::mem::discriminant`: the variant tag, ignoring payloads. -/
def Token.discr : Token → Nat
  | .integer _ => 0
  | .float _ => 1
  | .string _ => 2
  | .boolean _ => 3
  | .identifier _ => 4
  | .plus => 5
  | .minus => 6
  | .star => 7
  | .slash => 8
  | .percent => 9
  | .equal => 10
  | .notEqual => 11
  | .lessThan => 12
  | .lessThanEqual => 13
  | .greaterThan => 14
  | .greaterThanEqual => 15
  | .and => 16
  | .or => 17
  | .not => 18
  | .assign => 19
  | .leftParen => 20
  | .rightParen => 21
  | .leftBrace => 22
  | .rightBrace => 23
  | .leftBracket => 24
  | .rightBracket => 25
  | .semicolon => 26
  | .comma => 27
  | .dot => 28
  | .kwIf => 29
  | .kwElse => 30
  | .kwWhile => 31
  | .kwFor => 32
  | .kwReturn => 33
  | .kwVar => 34
  | .kwFunc => 35
  | .kwInt => 36
  | .kwFloatType => 37
  | .kwBool => 38
  | .kwStringType => 39
  | .kwVoid => 40
  | .colon => 41
  | .arrow => 42
  | .eof => 43

/-- `lexer.rs`, `TokenInfo`. -/
structure TokenInfo where
  token : Token
  location : Location
deriving DecidableEq, Repr

/-! ### Lexer (`lexer.rs`) -/

/-- The logos whitespace class `[ \t\n\f]`. -/
def isWhitespaceChar (c : Char) : Bool :=
  c = ' ' || c = '\t' || c = '\n' || c = '\x0c'

/-- The regex class `[0-9]`. -/
def isDigitChar (c : Char) : Bool :=
  '0' ≤ c && c ≤ '9'

/-- The regex class `[a-zA-Z_]` (identifier start). -/
def isIdentStartChar (c : Char) : Bool :=
  ('a' ≤ c && c ≤ 'z') || ('A' ≤ c && c ≤ 'Z') || c = '_'

/-- The regex class `[a-zA-Z0-9_]` (identifier continuation). -/
def isIdentChar (c : Char) : Bool :=
  isIdentStartChar c || isDigitChar c

/-- Length of the longest prefix whose characters all satisfy `p` (greedy `p*`). -/
def takeWhileLen (p : Char → Bool) : List Char → Nat
  | [] => 0
  | c :: cs => if p c then takeWhileLen p cs + 1 else 0

/-- Numeric value of a digit run. -/
def digitsToNat (l : List Char) : Nat :=
  l.foldl (fun acc c => acc * 10 + (c.toNat - '0'.toNat)) 0

def i64MaxNat : Nat := 2 ^ 63 - 1

/-- `lex.slice().parse::<i64>().unwrap_or(0)` on a `[0-9]+` slice: a value beyond the
64-bit signed range fails to parse and yields 0. -/
def parseI64 (digits : List Char) : Int :=
  let n := digitsToNat digits
  if n ≤ i64MaxNat then (n : Int) else 0

/-- Scanner for the string-literal regex `"([^"]|\\")*"` (longest match).
`rest` is the input after the opening quote, `prev` the previously seen character,
`idx` the length consumed so far including the opening quote, `valid` whether every
quote seen so far inside the content is escaped by a preceding backslash, and `best`
the longest admissible lexeme length found so far. -/
def stringScan : List Char → Char → Nat → Option Nat → Bool → Option Nat
  | [], _, _, best, _ => best
  | c :: cs, prev, idx, best, valid =>
    if c = '"' then
      let best' := if valid then some (idx + 1) else best
      stringScan cs c (idx + 1) best' (valid && prev = '\\')
    else
      stringScan cs c (idx + 1) best valid

/-- Longest match of the string-literal rule; `rest` is the input after the opening
quote. Returns the whole lexeme length (both quotes included). -/
def stringMatchLen (rest : List Char) : Option Nat :=
  stringScan rest '"' 1 none true

/-- Scanner for the block-comment regex `/\*([^*]|\*+[^*/])*\*+/`: after the opening
`/*`, the comment closes at the first `*/` whose star is not the opening one.
`afterOpen` is the input after `/*`; `prev` starts at a non-star placeholder so the
opening star cannot serve as the closer. Returns the whole lexeme length. -/
def blockCommentScan : List Char → Char → Nat → Option Nat
  | [], _, _ => none
  | c :: cs, prev, idx =>
    if c = '/' && prev = '*' then some (idx + 1)
    else blockCommentScan cs c (idx + 1)

def blockCommentLen (afterOpen : List Char) : Option Nat :=
  blockCommentScan afterOpen ' ' 2

/-- Keyword, boolean and identifier resolution for a maximal `[a-zA-Z0-9_]*` run:
an exact keyword or `true`/`false` spelling wins over the identifier rule (logos
priority), a longer run is an identifier (longest match). -/
def identOrKeyword (run : List Char) : Token :=
  match String.mk run with
  | "true" => .boolean true
  | "false" => .boolean false
  | "if" => .kwIf
  | "else" => .kwElse
  | "while" => .kwWhile
  | "for" => .kwFor
  | "return" => .kwReturn
  | "var" => .kwVar
  | "func" => .kwFunc
  | "int" => .kwInt
  | "float" => .kwFloatType
  | "bool" => .kwBool
  | "string" => .kwStringType
  | "void" => .kwVoid
  | s => .identifier s

/-- Outcome of matching one lexeme at the current position: a token of the given
length, a discarded (comment/whitespace) run, or no rule matching (the logos
`Error` catch-all, which `tokenize` turns into a lexical error). -/
inductive Lexeme where
  | tok (t : Token) (len : Nat)
  | skip (len : Nat)
  | err
deriving DecidableEq, Repr

/-- Single-character operators and punctuation (`#token` rules of `lexer.rs`). -/
def singleCharOp (c : Char) : Lexeme :=
  if c = '+' then .tok .plus 1
  else if c = '-' then .tok .minus 1
  else if c = '*' then .tok .star 1
  else if c = '/' then .tok .slash 1
  else if c = '%' then .tok .percent 1
  else if c = '<' then .tok .lessThan 1
  else if c = '>' then .tok .greaterThan 1
  else if c = '!' then .tok .not 1
  else if c = '=' then .tok .assign 1
  else if c = '(' then .tok .leftParen 1
  else if c = ')' then .tok .rightParen 1
  else if c = '{' then .tok .leftBrace 1
  else if c = '}' then .tok .rightBrace 1
  else if c = '[' then .tok .leftBracket 1
  else if c = ']' then .tok .rightBracket 1
  else if c = ';' then .tok .semicolon 1
  else if c = ',' then .tok .comma 1
  else if c = '.' then .tok .dot 1
  else if c = ':' then .tok .colon 1
  else .err

/-- Two-character operators tried before their single-character prefixes
(longest match among the `#token` rules). -/
def opLexeme (c : Char) (rest : List Char) : Lexeme :=
  match rest with
  | d :: _ =>
    if c = '=' && d = '=' then .tok .equal 2
    else if c = '!' && d = '=' then .tok .notEqual 2
    else if c = '<' && d = '=' then .tok .lessThanEqual 2
    else if c = '>' && d = '=' then .tok .greaterThanEqual 2
    else if c = '&' && d = '&' then .tok .and 2
    else if c = '|' && d = '|' then .tok .or 2
    else if c = '-' && d = '>' then .tok .arrow 2
    else singleCharOp c
  | [] => singleCharOp c

/-- Greedy longest-match scan of one lexeme, the rule set and disambiguation of the
logos-derived `Token` enum: rule families are dispatched on the first character
(their first-character sets are disjoint), and inside a family the longest match is
taken, with keyword/boolean spellings taking priority over the identifier rule. -/
def nextLexemeCons (c : Char) (rest : List Char) : Lexeme :=
  if isWhitespaceChar c then
    .skip (takeWhileLen isWhitespaceChar (c :: rest))
  else if c = '/' && (rest.headD ' ') = '/' then
    .skip (2 + takeWhileLen (fun d => d != '\n') (rest.drop 1))
  else if c = '/' && (rest.headD ' ') = '*' then
    match blockCommentLen (rest.drop 1) with
    | some n => .skip n
    | none => .tok .slash 1
  else if c = '"' then
    match stringMatchLen rest with
    | some n => .tok (.string (String.mk (((c :: rest).drop 1).take (n - 2)))) n
    | none => .err
  else if isDigitChar c then
    let intLen := takeWhileLen isDigitChar (c :: rest)
    match (c :: rest).drop intLen with
    | '.' :: d :: _ =>
      if isDigitChar d then
        let fracLen := takeWhileLen isDigitChar (((c :: rest).drop intLen).drop 1)
        let total := intLen + 1 + fracLen
        .tok (.float (String.mk ((c :: rest).take total))) total
      else
        .tok (.integer (parseI64 ((c :: rest).take intLen))) intLen
    | _ =>
      .tok (.integer (parseI64 ((c :: rest).take intLen))) intLen
  else if isIdentStartChar c then
    let runLen := takeWhileLen isIdentChar (c :: rest)
    .tok (identOrKeyword ((c :: rest).take runLen)) runLen
  else
    opLexeme c rest

def nextLexeme : List Char → Lexeme
  | [] => .err
  | c :: rest => nextLexemeCons c rest

/-- Number of `'\n'` characters, `before.chars().filter(|&c| c == '\n').count()`. -/
def countNl (l : List Char) : Nat := l.count '\n'

/-- `before.rfind('\n')`: index of the last newline, if any. -/
def rfindNl : List Char → Option Nat
  | [] => none
  | c :: cs =>
    match rfindNl cs with
    | some i => some (i + 1)
    | none => if c = '\n' then some 0 else none

/-- The line/column computation of `Lexer::tokenize` for a lexeme starting at byte
`start` with byte length `len`: 1-based line by counting newlines before `start`,
1-based column as the offset from the last newline (or from the start of input). -/
def locOf (source : List Char) (start len : Nat) : Location :=
  let before := source.take start
  let line := countNl before + 1
  let column :=
    match rfindNl before with
    | some idx => before.length - idx
    | none => before.length + 1
  ⟨line, column, len⟩

/-- The scanning loop of `Lexer::tokenize`, also recording each token's starting byte
offset (the logos `lexer.span().start`, which the Rust code consumes on the spot to
compute the `Location`). `fuel` bounds the number of loop iterations; every lexeme
consumes at least one byte, so `source.length + 1` iterations always suffice. -/
def tokenizeAux (source : List Char) : Nat → Nat → Except CompilerError (List (TokenInfo × Nat))
  | _, 0 => .error .internalErr
  | pos, fuel + 1 =>
    if source.length ≤ pos then
      .ok [(⟨.eof, locOf source source.length 0⟩, source.length)]
    else
      match nextLexeme (source.drop pos) with
      | .skip n => tokenizeAux source (pos + n) fuel
      | .tok t n =>
        match tokenizeAux source (pos + n) fuel with
        | .error e => .error e
        | .ok tail => .ok ((⟨t, locOf source pos n⟩, pos) :: tail)
      | .err =>
        let loc := locOf source pos 0
        .error (.lexErr loc.line loc.column)

/-- `Lexer::tokenize`, instrumented with each token's starting byte offset. -/
def tokenizeSpans (source : List Char) : Except CompilerError (List (TokenInfo × Nat)) :=
  tokenizeAux source 0 (source.length + 1)

/-- `Lexer::tokenize`: the token sequence (an explicit end-of-stream token last). -/
def tokenize (source : List Char) : Except CompilerError (List TokenInfo) :=
  (tokenizeSpans source).map (List.map Prod.fst)

/-! ### Reconstructing spans from locations (the spec's round-trip mapping) -/

/-- Positions of all `'\n'` characters, in increasing order. -/
def nlPositions : List Char → List Nat
  | [] => []
  | c :: cs =>
    let ps := (nlPositions cs).map (· + 1)
    if c = '\n' then 0 :: ps else ps

/-- Modelled from the spec's round-trip property: the byte offset at which the
1-based line `line` starts (just after the `(line-1)`-th newline). -/
def lineStartPos (source : List Char) (line : Nat) : Nat :=
  if line ≤ 1 then 0 else (nlPositions source).getD (line - 2) 0 + 1

/-- Modelled from the spec's round-trip property: map a `Location` back to the byte
offset where the token started. -/
def reconstructStart (source : List Char) (loc : Location) : Nat :=
  lineStartPos source loc.line + (loc.column - 1)

/-- Modelled from the spec's round-trip property: the source slice a `Location`
denotes. -/
def reconstructSlice (source : List Char) (loc : Location) : List Char :=
  (source.drop (reconstructStart source loc)).take loc.length

/-! ### AST (`ast.rs`) -/

/-- `ast.rs`, `BinaryOperator`. -/
inductive BinaryOperator where
  | add
  | subtract
  | multiply
  | divide
  | modulo
  | equal
  | notEqual
  | lessThan
  | lessThanEqual
  | greaterThan
  | greaterThanEqual
  | and
  | or
deriving DecidableEq, Repr

/-- `ast.rs`, `UnaryOperator`. -/
inductive UnaryOperator where
  | negate
  | not
  | minus
deriving DecidableEq, Repr

/-- `ast.rs`, `Parameter`. -/
structure Parameter where
  name : String
  paramType : Ty
  location : Location

/-- `ast.rs`, `Expression` with its payload structs inlined (each wrapper struct held
exactly the fields carried here, ownership is tree-shaped). -/
inductive Expression where
  | literal (value : Lit) (location : Location)
  | identifier (name : String) (location : Location)
  | binary (left : Expression) (operator : BinaryOperator) (right : Expression) (location : Location)
  | unary (operator : UnaryOperator) (operand : Expression) (location : Location)
  | call (function : String) (arguments : List Expression) (location : Location)
  | assignment (target : String) (value : Expression) (location : Location)

mutual

/-- `ast.rs`, `Statement`, payload structs inlined; `ifS`/`whileS`/`ret` avoid Lean
keywords. -/
inductive Statement where
  | expression (expression : Expression) (location : Location)
  | declaration (name : String) (varType : Ty) (initializer : Option Expression) (location : Location)
  | assignment (target : String) (value : Expression) (location : Location)
  | ifS (condition : Expression) (thenBranch : Statement) (elseBranch : Option Statement) (location : Location)
  | whileS (condition : Expression) (body : Statement) (location : Location)
  | function (name : String) (parameters : List Parameter) (returnType : Ty) (body : BlockStmt) (location : Location)
  | ret (value : Option Expression) (location : Location)
  | block (b : BlockStmt)

/-- `ast.rs`, `BlockStatement`. -/
inductive BlockStmt where
  | mk (statements : List Statement) (location : Location)

end

def BlockStmt.statements : BlockStmt → List Statement
  | .mk stmts _ => stmts

def BlockStmt.location : BlockStmt → Location
  | .mk _ loc => loc

/-- `ast.rs`, `Program`. -/
structure Program where
  statements : List Statement

/-! ### Parser (`parser.rs`) -/

/-- `Parser`'s fields: the token buffer and the cursor. -/
structure PState where
  tokens : List TokenInfo
  current : Nat

/-- Default used for out-of-range indexing; the lexer always terminates its output
with the end-of-stream token, so indexing in `peek`/`previous` never goes past it
and the default is never read on lexer-produced input. -/
def eofDefault : TokenInfo := ⟨.eof, ⟨0, 0, 0⟩⟩

def PState.peek (st : PState) : TokenInfo :=
  st.tokens.getD st.current eofDefault

def PState.previous (st : PState) : TokenInfo :=
  st.tokens.getD (st.current - 1) eofDefault

/-- `self.peek().token == Token::Eof` (full `PartialEq` equality). -/
def PState.isAtEnd (st : PState) : Bool :=
  st.peek.token == .eof

/-- `Parser::check`: discriminant comparison against the expected token. -/
def PState.check (st : PState) (t : Token) : Bool :=
  if st.isAtEnd then false else st.peek.token.discr == t.discr

/-- `Parser::advance`. -/
def PState.advance (st : PState) : Option TokenInfo × PState :=
  if st.isAtEnd then (none, st)
  else (some (st.tokens.getD st.current eofDefault), { st with current := st.current + 1 })

/-- `Parser::match_token`. -/
def PState.matchToken (st : PState) (t : Token) : Bool × PState :=
  if st.check t then (true, (st.advance).2) else (false, st)

/-- `Parser::expect`. -/
def PState.expect (st : PState) (t : Token) : Except CompilerError (TokenInfo × PState) :=
  if st.check t then
    let st' := { st with current := st.current + 1 }
    .ok (st'.previous, st')
  else
    .error (.synErr st.peek.location.line st.peek.location.column)

abbrev PResult (α : Type) := Except CompilerError (α × PState)

mutual

/-- The `while !self.is_at_end()` loop of `Parser::parse` (`declaration()` always
returns `Some`, so the `if let Some` in the loop always pushes). -/
def parseProgramAux : Nat → PState → List Statement → Except CompilerError (List Statement × PState)
  | 0, _, _ => .error .internalErr
  | fuel + 1, st, acc =>
    if st.isAtEnd then .ok (acc.reverse, st)
    else
      match parseDeclaration fuel st with
      | .error e => .error e
      | .ok (stmt, st') => parseProgramAux fuel st' (stmt :: acc)

/-- `Parser::declaration`. -/
def parseDeclaration : Nat → PState → PResult Statement
  | 0, _ => .error .internalErr
  | fuel + 1, st =>
    match st.matchToken .kwVar with
    | (true, st1) => varDeclaration fuel st1
    | (false, _) =>
      match st.matchToken .kwFunc with
      | (true, st1) => functionDeclaration fuel st1
      | (false, _) => parseStatement fuel st

/-- `Parser::var_declaration` (the `var` keyword has just been consumed). -/
def varDeclaration : Nat → PState → PResult Statement
  | 0, _ => .error .internalErr
  | fuel + 1, st =>
    let location := st.previous.location
    match st.advance with
    | (none, _) => .error (.synErr 0 0)
    | (some ti, st1) =>
      match ti.token with
      | .identifier name =>
        match st1.matchToken .colon with
        | (true, st2) =>
          match parseType fuel st2 with
          | .error e => .error e
          | .ok (varType, st3) => varDeclInit fuel name varType location st3
        | (false, _) => varDeclInit fuel name .int location st1
      | _ => .error (.synErr ti.location.line ti.location.column)

/-- Initializer and semicolon part of `Parser::var_declaration`. -/
def varDeclInit : Nat → String → Ty → Location → PState → PResult Statement
  | 0, _, _, _, _ => .error .internalErr
  | fuel + 1, name, varType, location, st =>
    match st.matchToken .assign with
    | (true, st1) =>
      match parseExpression fuel st1 with
      | .error e => .error e
      | .ok (init, st2) =>
        match st2.expect .semicolon with
        | .error e => .error e
        | .ok (_, st3) => .ok (.declaration name varType (some init) location, st3)
    | (false, _) =>
      match st.expect .semicolon with
      | .error e => .error e
      | .ok (_, st1) => .ok (.declaration name varType none location, st1)

/-- `Parser::function_declaration` (the `func` keyword has just been consumed). -/
def functionDeclaration : Nat → PState → PResult Statement
  | 0, _ => .error .internalErr
  | fuel + 1, st =>
    let location := st.previous.location
    match st.advance with
    | (none, _) => .error (.synErr 0 0)
    | (some ti, st1) =>
      match ti.token with
      | .identifier name =>
        match st1.expect .leftParen with
        | .error e => .error e
        | .ok (_, st2) =>
          match
            (if st2.check .rightParen then .ok ([], st2) else paramsLoop fuel st2 []) with
          | .error e => .error e
          | .ok (parameters, st3) =>
            match st3.expect .rightParen with
            | .error e => .error e
            | .ok (_, st4) =>
              match st4.matchToken .arrow with
              | (true, st5) =>
                match parseType fuel st5 with
                | .error e => .error e
                | .ok (returnType, st6) => funcBody fuel name parameters returnType location st6
              | (false, _) => funcBody fuel name parameters .void location st4
      | _ => .error (.synErr ti.location.line ti.location.column)

/-- Body part of `Parser::function_declaration`. -/
def funcBody : Nat → String → List Parameter → Ty → Location → PState → PResult Statement
  | 0, _, _, _, _, _ => .error .internalErr
  | fuel + 1, name, parameters, returnType, location, st =>
    match st.expect .leftBrace with
    | .error e => .error e
    | .ok (_, st1) =>
      match blockStatement fuel st1 with
      | .error e => .error e
      | .ok (body, st2) => .ok (.function name parameters returnType body location, st2)

/-- The parameter loop of `Parser::function_declaration`. -/
def paramsLoop : Nat → PState → List Parameter → Except CompilerError (List Parameter × PState)
  | 0, _, _ => .error .internalErr
  | fuel + 1, st, acc =>
    match st.advance with
    | (none, _) => .error (.synErr 0 0)
    | (some ti, st1) =>
      match ti.token with
      | .identifier paramName =>
        match st1.expect .colon with
        | .error e => .error e
        | .ok (_, st2) =>
          match parseType fuel st2 with
          | .error e => .error e
          | .ok (paramType, st3) =>
            let acc' := acc ++ [⟨paramName, paramType, st3.previous.location⟩]
            match st3.matchToken .comma with
            | (true, st4) => paramsLoop fuel st4 acc'
            | (false, _) => .ok (acc', st3)
      | _ => .error (.synErr ti.location.line ti.location.column)

/-- `Parser::statement`. -/
def parseStatement : Nat → PState → PResult Statement
  | 0, _ => .error .internalErr
  | fuel + 1, st =>
    match st.matchToken .kwIf with
    | (true, st1) => ifStatement fuel st1
    | (false, _) =>
      match st.matchToken .kwWhile with
      | (true, st1) => whileStatement fuel st1
      | (false, _) =>
        match st.matchToken .kwReturn with
        | (true, st1) => returnStatement fuel st1
        | (false, _) =>
          match st.matchToken .leftBrace with
          | (true, st1) =>
            match blockStatement fuel st1 with
            | .error e => .error e
            | .ok (b, st2) => .ok (.block b, st2)
          | (false, _) => expressionStatement fuel st

/-- `Parser::if_statement` (the `if` keyword has just been consumed). -/
def ifStatement : Nat → PState → PResult Statement
  | 0, _ => .error .internalErr
  | fuel + 1, st =>
    let location := st.previous.location
    match st.expect .leftParen with
    | .error e => .error e
    | .ok (_, st1) =>
      match parseExpression fuel st1 with
      | .error e => .error e
      | .ok (condition, st2) =>
        match st2.expect .rightParen with
        | .error e => .error e
        | .ok (_, st3) =>
          match parseStatement fuel st3 with
          | .error e => .error e
          | .ok (thenBranch, st4) =>
            match st4.matchToken .kwElse with
            | (true, st5) =>
              match parseStatement fuel st5 with
              | .error e => .error e
              | .ok (elseBranch, st6) =>
                .ok (.ifS condition thenBranch (some elseBranch) location, st6)
            | (false, _) => .ok (.ifS condition thenBranch none location, st4)

/-- `Parser::while_statement` (the `while` keyword has just been consumed). -/
def whileStatement : Nat → PState → PResult Statement
  | 0, _ => .error .internalErr
  | fuel + 1, st =>
    let location := st.previous.location
    match st.expect .leftParen with
    | .error e => .error e
    | .ok (_, st1) =>
      match parseExpression fuel st1 with
      | .error e => .error e
      | .ok (condition, st2) =>
        match st2.expect .rightParen with
        | .error e => .error e
        | .ok (_, st3) =>
          match parseStatement fuel st3 with
          | .error e => .error e
          | .ok (body, st4) => .ok (.whileS condition body location, st4)

/-- `Parser::return_statement` (the `return` keyword has just been consumed). -/
def returnStatement : Nat → PState → PResult Statement
  | 0, _ => .error .internalErr
  | fuel + 1, st =>
    let location := st.previous.location
    if st.check .semicolon then
      match st.expect .semicolon with
      | .error e => .error e
      | .ok (_, st1) => .ok (.ret none location, st1)
    else
      match parseExpression fuel st with
      | .error e => .error e
      | .ok (value, st1) =>
        match st1.expect .semicolon with
        | .error e => .error e
        | .ok (_, st2) => .ok (.ret (some value) location, st2)

/-- `Parser::block_statement` (the `{` has just been consumed). -/
def blockStatement : Nat → PState → Except CompilerError (BlockStmt × PState)
  | 0, _ => .error .internalErr
  | fuel + 1, st =>
    let location := st.previous.location
    match blockLoop fuel st [] with
    | .error e => .error e
    | .ok (stmts, st1) =>
      if st1.isAtEnd then
        .error (.synErr st1.previous.location.line st1.previous.location.column)
      else
        match st1.expect .rightBrace with
        | .error e => .error e
        | .ok (_, st2) => .ok (⟨stmts, location⟩, st2)

/-- The statement loop of `Parser::block_statement`. -/
def blockLoop : Nat → PState → List Statement → Except CompilerError (List Statement × PState)
  | 0, _, _ => .error .internalErr
  | fuel + 1, st, acc =>
    if !st.check .rightBrace && !st.isAtEnd then
      match parseDeclaration fuel st with
      | .error e => .error e
      | .ok (stmt, st1) => blockLoop fuel st1 (acc ++ [stmt])
    else
      .ok (acc, st)

/-- `Parser::expression_statement`. -/
def expressionStatement : Nat → PState → PResult Statement
  | 0, _ => .error .internalErr
  | fuel + 1, st =>
    match parseExpression fuel st with
    | .error e => .error e
    | .ok (expression, st1) =>
      let location := st1.previous.location
      match st1.expect .semicolon with
      | .error e => .error e
      | .ok (_, st2) => .ok (.expression expression location, st2)

/-- `Parser::expression`. -/
def parseExpression : Nat → PState → PResult Expression
  | 0, _ => .error .internalErr
  | fuel + 1, st => parseAssignment fuel st

/-- `Parser::assignment`: right-associative, and only a left-hand side that parsed
as a bare identifier may be assigned to. -/
def parseAssignment : Nat → PState → PResult Expression
  | 0, _ => .error .internalErr
  | fuel + 1, st =>
    match orExpr fuel st with
    | .error e => .error e
    | .ok (expr, st1) =>
      match st1.matchToken .assign with
      | (true, st2) =>
        match parseAssignment fuel st2 with
        | .error e => .error e
        | .ok (value, st3) =>
          match expr with
          | .identifier name _ =>
            .ok (.assignment name value st3.previous.location, st3)
          | _ =>
            .error (.synErr st3.previous.location.line st3.previous.location.column)
      | (false, _) => .ok (expr, st1)

/-- `Parser::or`. -/
def orExpr : Nat → PState → PResult Expression
  | 0, _ => .error .internalErr
  | fuel + 1, st =>
    match andExpr fuel st with
    | .error e => .error e
    | .ok (expr, st1) => orLoop fuel expr st1

def orLoop : Nat → Expression → PState → PResult Expression
  | 0, _, _ => .error .internalErr
  | fuel + 1, expr, st =>
    match st.matchToken .or with
    | (true, st1) =>
      match andExpr fuel st1 with
      | .error e => .error e
      | .ok (right, st2) =>
        orLoop fuel (.binary expr .or right st2.previous.location) st2
    | (false, _) => .ok (expr, st)

/-- `Parser::and`. -/
def andExpr : Nat → PState → PResult Expression
  | 0, _ => .error .internalErr
  | fuel + 1, st =>
    match equalityExpr fuel st with
    | .error e => .error e
    | .ok (expr, st1) => andLoop fuel expr st1

def andLoop : Nat → Expression → PState → PResult Expression
  | 0, _, _ => .error .internalErr
  | fuel + 1, expr, st =>
    match st.matchToken .and with
    | (true, st1) =>
      match equalityExpr fuel st1 with
      | .error e => .error e
      | .ok (right, st2) =>
        andLoop fuel (.binary expr .and right st2.previous.location) st2
    | (false, _) => .ok (expr, st)

/-- `Parser::equality`. -/
def equalityExpr : Nat → PState → PResult Expression
  | 0, _ => .error .internalErr
  | fuel + 1, st =>
    match comparisonExpr fuel st with
    | .error e => .error e
    | .ok (expr, st1) => equalityLoop fuel expr st1

def equalityLoop : Nat → Expression → PState → PResult Expression
  | 0, _, _ => .error .internalErr
  | fuel + 1, expr, st =>
    match (match st.matchToken .equal with
           | (true, st1) => (true, st1)
           | (false, _) => st.matchToken .notEqual) with
    | (true, st1) =>
      let operator := if st1.previous.token == .equal then BinaryOperator.equal else .notEqual
      match comparisonExpr fuel st1 with
      | .error e => .error e
      | .ok (right, st2) =>
        equalityLoop fuel (.binary expr operator right st2.previous.location) st2
    | (false, _) => .ok (expr, st)

/-- `Parser::comparison`. -/
def comparisonExpr : Nat → PState → PResult Expression
  | 0, _ => .error .internalErr
  | fuel + 1, st =>
    match termExpr fuel st with
    | .error e => .error e
    | .ok (expr, st1) => comparisonLoop fuel expr st1

def comparisonLoop : Nat → Expression → PState → PResult Expression
  | 0, _, _ => .error .internalErr
  | fuel + 1, expr, st =>
    match (match st.matchToken .lessThan with
           | (true, st1) => (true, st1)
           | (false, _) =>
             match st.matchToken .lessThanEqual with
             | (true, st1) => (true, st1)
             | (false, _) =>
               match st.matchToken .greaterThan with
               | (true, st1) => (true, st1)
               | (false, _) => st.matchToken .greaterThanEqual) with
    | (true, st1) =>
      let operator :=
        match st1.previous.token with
        | .lessThan => BinaryOperator.lessThan
        | .lessThanEqual => .lessThanEqual
        | .greaterThan => .greaterThan
        | _ => .greaterThanEqual
      match termExpr fuel st1 with
      | .error e => .error e
      | .ok (right, st2) =>
        comparisonLoop fuel (.binary expr operator right st2.previous.location) st2
    | (false, _) => .ok (expr, st)

/-- `Parser::term`. -/
def termExpr : Nat → PState → PResult Expression
  | 0, _ => .error .internalErr
  | fuel + 1, st =>
    match factorExpr fuel st with
    | .error e => .error e
    | .ok (expr, st1) => termLoop fuel expr st1

def termLoop : Nat → Expression → PState → PResult Expression
  | 0, _, _ => .error .internalErr
  | fuel + 1, expr, st =>
    match (match st.matchToken .plus with
           | (true, st1) => (true, st1)
           | (false, _) => st.matchToken .minus) with
    | (true, st1) =>
      let operator := if st1.previous.token == .plus then BinaryOperator.add else .subtract
      match factorExpr fuel st1 with
      | .error e => .error e
      | .ok (right, st2) =>
        termLoop fuel (.binary expr operator right st2.previous.location) st2
    | (false, _) => .ok (expr, st)

/-- `Parser::factor`. -/
def factorExpr : Nat → PState → PResult Expression
  | 0, _ => .error .internalErr
  | fuel + 1, st =>
    match unaryExpr fuel st with
    | .error e => .error e
    | .ok (expr, st1) => factorLoop fuel expr st1

def factorLoop : Nat → Expression → PState → PResult Expression
  | 0, _, _ => .error .internalErr
  | fuel + 1, expr, st =>
    match (match st.matchToken .star with
           | (true, st1) => (true, st1)
           | (false, _) =>
             match st.matchToken .slash with
             | (true, st1) => (true, st1)
             | (false, _) => st.matchToken .percent) with
    | (true, st1) =>
      let operator :=
        match st1.previous.token with
        | .star => BinaryOperator.multiply
        | .slash => .divide
        | _ => .modulo
      match unaryExpr fuel st1 with
      | .error e => .error e
      | .ok (right, st2) =>
        factorLoop fuel (.binary expr operator right st2.previous.location) st2
    | (false, _) => .ok (expr, st)

/-- `Parser::unary`. -/
def unaryExpr : Nat → PState → PResult Expression
  | 0, _ => .error .internalErr
  | fuel + 1, st =>
    match (match st.matchToken .not with
           | (true, st1) => (true, st1)
           | (false, _) => st.matchToken .minus) with
    | (true, st1) =>
      let operator := if st1.previous.token == .not then UnaryOperator.not else .minus
      match unaryExpr fuel st1 with
      | .error e => .error e
      | .ok (operand, st2) =>
        .ok (.unary operator operand st2.previous.location, st2)
    | (false, _) => callExpr fuel st

/-- `Parser::call`. -/
def callExpr : Nat → PState → PResult Expression
  | 0, _ => .error .internalErr
  | fuel + 1, st =>
    match primaryExpr fuel st with
    | .error e => .error e
    | .ok (expr, st1) => callLoop fuel expr st1

def callLoop : Nat → Expression → PState → PResult Expression
  | 0, _, _ => .error .internalErr
  | fuel + 1, expr, st =>
    match st.matchToken .leftParen with
    | (true, st1) =>
      match finishCall fuel expr st1 with
      | .error e => .error e
      | .ok (expr', st2) => callLoop fuel expr' st2
    | (false, _) => .ok (expr, st)

/-- `Parser::finish_call` (the `(` has just been consumed). -/
def finishCall : Nat → Expression → PState → PResult Expression
  | 0, _, _ => .error .internalErr
  | fuel + 1, callee, st =>
    match (if st.check .rightParen then .ok ([], st) else argsLoop fuel st []) with
    | .error e => .error e
    | .ok (arguments, st1) =>
      match st1.expect .rightParen with
      | .error e => .error e
      | .ok (closeTok, st2) =>
        let location := closeTok.location
        match callee with
        | .identifier name _ => .ok (.call name arguments location, st2)
        | _ => .error (.synErr location.line location.column)

/-- The argument loop of `Parser::finish_call`. -/
def argsLoop : Nat → PState → List Expression → Except CompilerError (List Expression × PState)
  | 0, _, _ => .error .internalErr
  | fuel + 1, st, acc =>
    match parseExpression fuel st with
    | .error e => .error e
    | .ok (arg, st1) =>
      match st1.matchToken .comma with
      | (true, st2) => argsLoop fuel st2 (acc ++ [arg])
      | (false, _) => .ok (acc ++ [arg], st1)

/-- `Parser::primary`. -/
def primaryExpr : Nat → PState → PResult Expression
  | 0, _ => .error .internalErr
  | fuel + 1, st =>
    match st.advance with
    | (none, _) => .error (.synErr 0 0)
    | (some ti, st1) =>
      let location := ti.location
      match ti.token with
      | .integer n => .ok (.literal (.integer n) location, st1)
      | .float x => .ok (.literal (.float x) location, st1)
      | .string s => .ok (.literal (.string s) location, st1)
      | .boolean b => .ok (.literal (.boolean b) location, st1)
      | .identifier name => .ok (.identifier name location, st1)
      | .leftParen =>
        match parseExpression fuel st1 with
        | .error e => .error e
        | .ok (expr, st2) =>
          match st2.expect .rightParen with
          | .error e => .error e
          | .ok (_, st3) => .ok (expr, st3)
      | _ => .error (.synErr location.line location.column)

/-- `Parser::parse_type`. -/
def parseType : Nat → PState → PResult Ty
  | 0, _ => .error .internalErr
  | _ + 1, st =>
    match st.advance with
    | (none, _) => .error (.synErr 0 0)
    | (some ti, st1) =>
      match ti.token with
      | .kwInt => .ok (.int, st1)
      | .kwFloatType => .ok (.float, st1)
      | .kwBool => .ok (.bool, st1)
      | .kwStringType => .ok (.string, st1)
      | .kwVoid => .ok (.void, st1)
      | _ => .error (.synErr ti.location.line ti.location.column)

end

/-- Fuel for one `Parser::parse` run: generous bound on the total number of parser
calls, linear in the token count. Fuel only runs out on inputs no terminating run
reaches; every concrete evaluation below stays far below the bound. -/
def parseFuel (tokens : List TokenInfo) : Nat :=
  256 * (tokens.length + 1)

/-- `Parser::parse` on a freshly constructed parser (`Parser::new`, cursor 0). -/
def parse (tokens : List TokenInfo) : Except CompilerError Program :=
  match parseProgramAux (parseFuel tokens) ⟨tokens, 0⟩ [] with
  | .error e => .error e
  | .ok (statements, _) => .ok ⟨statements⟩

/-! ### Semantic analyzer (`semantic.rs`)

Stateful methods on `&mut self` are modelled by explicit state threading: each
function returns the analyzer state as left by the call *together with* the
`CompilerResult`, so that the state at an early `?` error return is observable,
exactly as the Rust analyzer object retains it. -/

/-- `semantic.rs`, `Symbol`. -/
structure Symbol where
  name : String
  symbolType : Ty
  isFunction : Bool
  parameters : List Ty
  returnType : Option Ty

/-- `semantic.rs`, `Scope`: a name→symbol `HashMap` (modelled as an association
list with distinct keys — `define` never inserts an existing key) plus an
optional owned parent. -/
inductive Scope where
  | mk (symbols : List (String × Symbol)) (parent : Option Scope)

def Scope.symbols : Scope → List (String × Symbol)
  | .mk s _ => s

def Scope.parent : Scope → Option Scope
  | .mk _ p => p

/-- `Scope::new`. -/
def Scope.new : Scope := .mk [] none

/-- `Scope::with_parent`. -/
def Scope.withParent (parent : Scope) : Scope := .mk [] (some parent)

/-- `HashMap::get` on the association-list model. -/
def lookupAssoc : List (String × Symbol) → String → Option Symbol
  | [], _ => none
  | (k, v) :: rest, name => if k = name then some v else lookupAssoc rest name

/-- `HashMap::contains_key`. -/
def containsKey (l : List (String × Symbol)) (name : String) : Bool :=
  (lookupAssoc l name).isSome

/-- `HashMap::insert`: replace an existing key in place, otherwise add. -/
def insertAssoc : List (String × Symbol) → String → Symbol → List (String × Symbol)
  | [], name, v => [(name, v)]
  | (k, w) :: rest, name, v =>
    if k = name then (k, v) :: rest else (k, w) :: insertAssoc rest name v

/-- `Scope::define`: an error when the name exists in this scope's own map. -/
def Scope.define (s : Scope) (symbol : Symbol) : Except CompilerError Scope :=
  if containsKey s.symbols symbol.name then .error (.semErr none none)
  else .ok (.mk (insertAssoc s.symbols symbol.name symbol) s.parent)

mutual

/-- `Scope::resolve`: walk outward through the parent chain. -/
def Scope.resolve : Scope → String → Option Symbol
  | .mk symbols parent, name =>
    match lookupAssoc symbols name with
    | some symbol => some symbol
    | none => Scope.resolveParent parent name

/-- The `if let Some(parent) = &self.parent` tail of `Scope::resolve`. -/
def Scope.resolveParent : Option Scope → String → Option Symbol
  | some p, name => Scope.resolve p name
  | none, _ => none

end

/-- The mutable fields of `SemanticAnalyzer`. -/
structure AnalyzerState where
  currentScope : Scope
  functionReturnType : Option Ty

mutual

/-- `SemanticAnalyzer::types_compatible`. -/
def typesCompatible : Ty → Ty → Bool
  | .int, .int => true
  | .float, .float => true
  | .float, .int => true
  | .bool, .bool => true
  | .string, .string => true
  | .void, .void => true
  | .function p1 r1, .function p2 r2 =>
    if p1.length ≠ p2.length then false
    else typesCompatibleList p1 p2 && typesCompatible r1 r2
  | _, _ => false

/-- The pairwise parameter walk inside `types_compatible`. -/
def typesCompatibleList : List Ty → List Ty → Bool
  | [], _ => true
  | _, [] => true
  | t1 :: ts1, t2 :: ts2 => typesCompatible t1 t2 && typesCompatibleList ts1 ts2

end

/-- `SemanticAnalyzer::literal_type`. -/
def literalType : Lit → Ty
  | .integer _ => .int
  | .float _ => .float
  | .boolean _ => .bool
  | .string _ => .string

/-- The operator match of `SemanticAnalyzer::analyze_binary_expression`, after both
operand types have been inferred. -/
def binaryOpType (operator : BinaryOperator) (leftType rightType : Ty) (loc : Location) :
    CompilerResult Ty :=
  match operator with
  | .add | .subtract | .multiply | .divide =>
    if leftType == Ty.int && rightType == Ty.int then .ok .int
    else if (leftType == Ty.int || leftType == Ty.float) &&
            (rightType == Ty.int || rightType == Ty.float) then .ok .float
    else .error (.typeErr (some loc.line) (some loc.column))
  | .equal | .notEqual =>
    if typesCompatible leftType rightType then .ok .bool
    else .error (.typeErr (some loc.line) (some loc.column))
  | .lessThan | .lessThanEqual | .greaterThan | .greaterThanEqual =>
    if (leftType == Ty.int || leftType == Ty.float) &&
       (rightType == Ty.int || rightType == Ty.float) then .ok .bool
    else .error (.typeErr (some loc.line) (some loc.column))
  | .and | .or =>
    if leftType == Ty.bool && rightType == Ty.bool then .ok .bool
    else .error (.typeErr (some loc.line) (some loc.column))
  | .modulo =>
    if leftType == Ty.int && rightType == Ty.int then .ok .int
    else .error (.typeErr (some loc.line) (some loc.column))

/-- The operator match of `SemanticAnalyzer::analyze_unary_expression`. -/
def unaryOpType (operator : UnaryOperator) (operandType : Ty) (loc : Location) :
    CompilerResult Ty :=
  match operator with
  | .minus =>
    if operandType == Ty.int || operandType == Ty.float then .ok operandType
    else .error (.typeErr (some loc.line) (some loc.column))
  | .not =>
    if operandType == Ty.bool then .ok .bool
    else .error (.typeErr (some loc.line) (some loc.column))
  | .negate =>
    if operandType == Ty.int then .ok .int
    else .error (.typeErr (some loc.line) (some loc.column))

mutual

/-- `SemanticAnalyzer::analyze_expression` (with `analyze_binary_expression`,
`analyze_unary_expression`, `analyze_call_expression` and
`analyze_assignment_expression` inlined at their call sites). -/
def analyzeExpression (s : AnalyzerState) : Expression → AnalyzerState × CompilerResult Ty
  | .literal value _ => (s, .ok (literalType value))
  | .identifier name loc =>
    match s.currentScope.resolve name with
    | none => (s, .error (.semErr (some loc.line) (some loc.column)))
    | some symbol => (s, .ok symbol.symbolType)
  | .binary left operator right loc =>
    match analyzeExpression s left with
    | (s1, .error e) => (s1, .error e)
    | (s1, .ok leftType) =>
      match analyzeExpression s1 right with
      | (s2, .error e) => (s2, .error e)
      | (s2, .ok rightType) => (s2, binaryOpType operator leftType rightType loc)
  | .unary operator operand loc =>
    match analyzeExpression s operand with
    | (s1, .error e) => (s1, .error e)
    | (s1, .ok operandType) => (s1, unaryOpType operator operandType loc)
  | .call fname arguments loc =>
    match s.currentScope.resolve fname with
    | none => (s, .error (.semErr (some loc.line) (some loc.column)))
    | some symbol =>
      if !symbol.isFunction then (s, .error (.semErr (some loc.line) (some loc.column)))
      else if arguments.length ≠ symbol.parameters.length then
        (s, .error (.semErr (some loc.line) (some loc.column)))
      else
        match analyzeCallArgs s arguments symbol.parameters loc with
        | (s1, .error e) => (s1, .error e)
        | (s1, .ok ()) => (s1, .ok (symbol.returnType.getD .void))
  | .assignment target value loc =>
    match s.currentScope.resolve target with
    | none => (s, .error (.semErr (some loc.line) (some loc.column)))
    | some symbol =>
      match analyzeExpression s value with
      | (s1, .error e) => (s1, .error e)
      | (s1, .ok valueType) =>
        if !typesCompatible symbol.symbolType valueType then
          (s1, .error (.typeErr (some loc.line) (some loc.column)))
        else (s1, .ok symbol.symbolType)

/-- The argument loop of `analyze_call_expression` (`zip` of arguments with the
expected parameter types; the caller has already checked the lengths match). -/
def analyzeCallArgs (s : AnalyzerState) :
    List Expression → List Ty → Location → AnalyzerState × CompilerResult Unit
  | [], _, _ => (s, .ok ())
  | _, [], _ => (s, .ok ())
  | arg :: args, expected :: rest, loc =>
    match analyzeExpression s arg with
    | (s1, .error e) => (s1, .error e)
    | (s1, .ok argType) =>
      if !typesCompatible expected argType then
        (s1, .error (.typeErr (some loc.line) (some loc.column)))
      else analyzeCallArgs s1 args rest loc

end

/-- Insert a variable symbol into the current scope, the `self.current_scope.define`
tail of `analyze_declaration`. -/
def defineVariable (s : AnalyzerState) (name : String) (varType : Ty) :
    AnalyzerState × CompilerResult Unit :=
  match s.currentScope.define ⟨name, varType, false, [], none⟩ with
  | .error e => (s, .error e)
  | .ok sc => ({ s with currentScope := sc }, .ok ())

/-- `SemanticAnalyzer::analyze_declaration`. The redefinition pre-check calls
`Scope::resolve`, which walks the whole parent chain. -/
def analyzeDeclaration (s : AnalyzerState) (name : String) (varType : Ty)
    (initializer : Option Expression) (loc : Location) :
    AnalyzerState × CompilerResult Unit :=
  if (s.currentScope.resolve name).isSome then
    (s, .error (.semErr (some loc.line) (some loc.column)))
  else
    match initializer with
    | some init =>
      match analyzeExpression s init with
      | (s1, .error e) => (s1, .error e)
      | (s1, .ok initType) =>
        if !typesCompatible varType initType then
          (s1, .error (.typeErr (some loc.line) (some loc.column)))
        else defineVariable s1 name varType
    | none => defineVariable s name varType

/-- `SemanticAnalyzer::analyze_assignment`. -/
def analyzeAssignmentStatement (s : AnalyzerState) (target : String) (value : Expression)
    (loc : Location) : AnalyzerState × CompilerResult Unit :=
  match s.currentScope.resolve target with
  | none => (s, .error (.semErr (some loc.line) (some loc.column)))
  | some symbol =>
    if symbol.isFunction then (s, .error (.semErr (some loc.line) (some loc.column)))
    else
      match analyzeExpression s value with
      | (s1, .error e) => (s1, .error e)
      | (s1, .ok valueType) =>
        if !typesCompatible symbol.symbolType valueType then
          (s1, .error (.typeErr (some loc.line) (some loc.column)))
        else (s1, .ok ())

/-- `SemanticAnalyzer::analyze_return_statement`. -/
def analyzeReturnStatement (s : AnalyzerState) (value : Option Expression) (loc : Location) :
    AnalyzerState × CompilerResult Unit :=
  match s.functionReturnType with
  | none => (s, .error (.semErr (some loc.line) (some loc.column)))
  | some expected =>
    match value with
    | some v =>
      match analyzeExpression s v with
      | (s1, .error e) => (s1, .error e)
      | (s1, .ok valueType) =>
        if !typesCompatible expected valueType then
          (s1, .error (.typeErr (some loc.line) (some loc.column)))
        else (s1, .ok ())
    | none =>
      if !(expected == Ty.void) then
        (s, .error (.typeErr (some loc.line) (some loc.column)))
      else (s, .ok ())

/-- The parameter loop of `analyze_function_declaration`: define each parameter
symbol in the fresh function scope. -/
def defineParams (scope : Scope) : List Parameter → Except CompilerError Scope
  | [] => .ok scope
  | p :: ps =>
    match scope.define ⟨p.name, p.paramType, false, [], none⟩ with
    | .error e => .error e
    | .ok scope' => defineParams scope' ps

/-- The function symbol built by `analyze_function_declaration`. -/
def functionSymbol (name : String) (parameters : List Parameter) (returnType : Ty) : Symbol :=
  let paramTypes := parameters.map Parameter.paramType
  ⟨name, .function paramTypes returnType, true, paramTypes, some returnType⟩

mutual

/-- `SemanticAnalyzer::analyze_statement`; `analyze_function_declaration` is inlined
in the `function` arm (its early `?` returns leave the nested scope and the set
return-type slot in place, exactly as the Rust early returns do). -/
def analyzeStatement (s : AnalyzerState) : Statement → AnalyzerState × CompilerResult Unit
  | .expression expression _ =>
    match analyzeExpression s expression with
    | (s1, .error e) => (s1, .error e)
    | (s1, .ok _) => (s1, .ok ())
  | .declaration name varType initializer loc => analyzeDeclaration s name varType initializer loc
  | .assignment target value loc => analyzeAssignmentStatement s target value loc
  | .ifS condition thenBranch elseBranch loc =>
    match analyzeExpression s condition with
    | (s1, .error e) => (s1, .error e)
    | (s1, .ok conditionType) =>
      if !(conditionType == Ty.bool) then
        (s1, .error (.typeErr (some loc.line) (some loc.column)))
      else
        match analyzeStatement s1 thenBranch with
        | (s2, .error e) => (s2, .error e)
        | (s2, .ok ()) => analyzeOptStatement s2 elseBranch
  | .whileS condition body loc =>
    match analyzeExpression s condition with
    | (s1, .error e) => (s1, .error e)
    | (s1, .ok conditionType) =>
      if !(conditionType == Ty.bool) then
        (s1, .error (.typeErr (some loc.line) (some loc.column)))
      else analyzeStatement s1 body
  | .function name parameters returnType body loc =>
    if (s.currentScope.resolve name).isSome then
      (s, .error (.semErr (some loc.line) (some loc.column)))
    else
      match s.currentScope.define (functionSymbol name parameters returnType) with
      | .error e => (s, .error e)
      | .ok definedScope =>
        match defineParams (Scope.withParent definedScope) parameters with
        | .error e => ({ s with currentScope := definedScope }, .error e)
        | .ok functionScope =>
          let oldReturnType := s.functionReturnType
          match analyzeBlockStatement ⟨functionScope, some returnType⟩ body with
          | (sAfter, .error e) => (sAfter, .error e)
          | (_, .ok ()) => (⟨definedScope, oldReturnType⟩, .ok ())
  | .ret value loc => analyzeReturnStatement s value loc
  | .block b => analyzeBlockStatement s b

/-- The `if let Some(else_branch)` tail of `analyze_if_statement`. -/
def analyzeOptStatement (s : AnalyzerState) : Option Statement → AnalyzerState × CompilerResult Unit
  | none => (s, .ok ())
  | some st => analyzeStatement s st

/-- `SemanticAnalyzer::analyze_block_statement`: push a child scope, analyze the
statements, restore the saved scope — on normal completion only; an early error
return keeps the block scope current. -/
def analyzeBlockStatement (s : AnalyzerState) : BlockStmt → AnalyzerState × CompilerResult Unit
  | .mk statements _ =>
    let oldScope := s.currentScope
    match analyzeStatements { s with currentScope := Scope.withParent s.currentScope } statements with
    | (s1, .error e) => (s1, .error e)
    | (s1, .ok ()) => ({ s1 with currentScope := oldScope }, .ok ())

/-- The statement loop shared by `analyze` and `analyze_block_statement` (`?`
early-exit on the first error). -/
def analyzeStatements (s : AnalyzerState) : List Statement → AnalyzerState × CompilerResult Unit
  | [] => (s, .ok ())
  | stmt :: rest =>
    match analyzeStatement s stmt with
    | (s1, .error e) => (s1, .error e)
    | (s1, .ok ()) => analyzeStatements s1 rest

end

/-- `SemanticAnalyzer::define_builtins`: the fixed print/println signatures seeded
into the outermost scope. -/
def defineBuiltins (scope : Scope) : Except CompilerError Scope :=
  match scope.define ⟨"print", .function [.string] .void, true, [.string], some .void⟩ with
  | .error e => .error e
  | .ok sc1 =>
    match sc1.define ⟨"println", .function [.string] .void, true, [.string], some .void⟩ with
    | .error e => .error e
    | .ok sc2 =>
      match sc2.define ⟨"println_int", .function [.int] .void, true, [.int], some .void⟩ with
      | .error e => .error e
      | .ok sc3 =>
        match sc3.define ⟨"println_float", .function [.float] .void, true, [.float], some .void⟩ with
        | .error e => .error e
        | .ok sc4 =>
          sc4.define ⟨"println_bool", .function [.bool] .void, true, [.bool], some .void⟩

/-- The analyzer state of `SemanticAnalyzer::new` after `define_builtins`
(the first thing `analyze` runs; it never fails on the fresh scope). -/
def initialAnalyzerState : AnalyzerState :=
  match defineBuiltins Scope.new with
  | .error _ => ⟨Scope.new, none⟩
  | .ok sc => ⟨sc, none⟩

/-- `SemanticAnalyzer::analyze` on a freshly constructed analyzer. -/
def analyzeProgram (program : Program) : AnalyzerState × CompilerResult Unit :=
  match defineBuiltins Scope.new with
  | .error e => (⟨Scope.new, none⟩, .error e)
  | .ok sc => analyzeStatements ⟨sc, none⟩ program.statements

/-! ### Code generator (`codegen.rs`)

As with the analyzer, `&mut self` methods are modelled by explicit state threading.
The `string_literals` and `local_variables` `HashMap`s are association lists with
distinct keys (`insert` replaces in place), so the list length is the map's `len()`.
The only place a map is iterated, the data-section loop of `generate`, runs over the
map as it stands on entry — before any literal has been collected — so the
arbitrary `HashMap` iteration order is immaterial there. -/

/-- The mutable fields of `CodeGenerator` (`_optimization_level` is never read). -/
structure GenState where
  labelCounter : Nat
  stringLiterals : List (String × String)
  currentFunction : Option String
  localVariables : List (String × Int)
  stackOffset : Int

/-- `CodeGenerator::new`. -/
def GenState.new : GenState := ⟨0, [], none, [], 0⟩

/-- `HashMap::get` on the variable-offset table. -/
def lookupVar : List (String × Int) → String → Option Int
  | [], _ => none
  | (k, v) :: rest, name => if k = name then some v else lookupVar rest name

/-- `HashMap::insert` on the variable-offset table. -/
def insertVar : List (String × Int) → String → Int → List (String × Int)
  | [], name, v => [(name, v)]
  | (k, w) :: rest, name, v =>
    if k = name then (k, v) :: rest else (k, w) :: insertVar rest name v

/-- `HashMap::get` on the string-literal table. -/
def lookupLit : List (String × String) → String → Option String
  | [], _ => none
  | (k, v) :: rest, name => if k = name then some v else lookupLit rest name

/-- `HashMap::insert` on the string-literal table. -/
def insertLit : List (String × String) → String → String → List (String × String)
  | [], name, v => [(name, v)]
  | (k, w) :: rest, name, v =>
    if k = name then (k, v) :: rest else (k, w) :: insertLit rest name v

/-- `CodeGenerator::generate_label`: bump the counter, suffix it to the prefix. -/
def generateLabel (g : GenState) (prefixStr : String) : String × GenState :=
  let c := g.labelCounter + 1
  (prefixStr ++ "_" ++ toString c, { g with labelCounter := c })

/-- `CodeGenerator::add_string_literal`: build a label from the table's current
`len()` and insert unconditionally — no lookup of an existing entry. -/
def addStringLiteral (g : GenState) (s : String) : String × GenState :=
  let label := "str_" ++ toString g.stringLiterals.length
  (label, { g with stringLiterals := insertLit g.stringLiterals s label })

/-- Approximation of `*x as i64` on the source text of a float literal: its integer
part, saturated at the i64 maximum as the Rust cast saturates. IEEE rounding of the
`f64` is not modelled; no claim depends on a float literal's value. -/
def floatTextAsI64 (txt : String) : Int :=
  let intDigits := txt.toList.takeWhile (fun c => c != '.')
  let n := digitsToNat intDigits
  if n ≤ i64MaxNat then (n : Int) else (i64MaxNat : Int)

/-- `CodeGenerator::generate_literal`. -/
def generateLiteral (g : GenState) : Lit → GenState × CompilerResult String
  | .integer n => (g, .ok ("    push " ++ toString n ++ "\n"))
  | .float txt => (g, .ok ("    push " ++ toString (floatTextAsI64 txt) ++ "\n"))
  | .boolean b => (g, .ok ("    push " ++ (if b then "1" else "0") ++ "\n"))
  | .string s =>
    let (label, g1) := addStringLiteral g s
    (g1, .ok ("    push " ++ label ++ "\n"))

/-- `CodeGenerator::generate_identifier`. -/
def generateIdentifier (g : GenState) (name : String) : GenState × CompilerResult String :=
  match lookupVar g.localVariables name with
  | none => (g, .error .cgErr)
  | some offset =>
    (g, .ok ("    mov rax, [rbp" ++ toString offset ++ "]\n    push rax\n"))

/-- The operator match of `CodeGenerator::generate_binary_expression`. -/
def binaryOpAsm : BinaryOperator → String
  | .add => "    add rax, rbx\n"
  | .subtract => "    sub rax, rbx\n"
  | .multiply => "    imul rax, rbx\n"
  | .divide => "    cqo\n    idiv rbx\n"
  | .modulo => "    cqo\n    idiv rbx\n    mov rax, rdx\n"
  | .equal => "    cmp rax, rbx\n    sete al\n    movzx rax, al\n"
  | .notEqual => "    cmp rax, rbx\n    setne al\n    movzx rax, al\n"
  | .lessThan => "    cmp rax, rbx\n    setl al\n    movzx rax, al\n"
  | .lessThanEqual => "    cmp rax, rbx\n    setle al\n    movzx rax, al\n"
  | .greaterThan => "    cmp rax, rbx\n    setg al\n    movzx rax, al\n"
  | .greaterThanEqual => "    cmp rax, rbx\n    setge al\n    movzx rax, al\n"
  | .and => "    and rax, rbx\n"
  | .or => "    or rax, rbx\n"

/-- The operator match of `CodeGenerator::generate_unary_expression`. -/
def unaryOpAsm : UnaryOperator → String
  | .minus => "    neg rax\n"
  | .not => "    cmp rax, 0\n    sete al\n    movzx rax, al\n"
  | .negate => "    not rax\n"

mutual

/-- `CodeGenerator::generate_expression` (sub-generators inlined at their arms). -/
def generateExpression (g : GenState) : Expression → GenState × CompilerResult String
  | .literal value _ => generateLiteral g value
  | .identifier name _ => generateIdentifier g name
  | .binary left operator right _ =>
    match generateExpression g right with
    | (g1, .error e) => (g1, .error e)
    | (g1, .ok rightCode) =>
      match generateExpression g1 left with
      | (g2, .error e) => (g2, .error e)
      | (g2, .ok leftCode) =>
        (g2, .ok (rightCode ++ leftCode ++ "    pop rbx\n" ++ "    pop rax\n" ++
          binaryOpAsm operator ++ "    push rax\n"))
  | .unary operator operand _ =>
    match generateExpression g operand with
    | (g1, .error e) => (g1, .error e)
    | (g1, .ok code) =>
      (g1, .ok (code ++ "    pop rax\n" ++ unaryOpAsm operator ++ "    push rax\n"))
  | .call fname arguments _ =>
    match generateArgsRev g arguments with
    | (g1, .error e) => (g1, .error e)
    | (g1, .ok argsCode) =>
      let callCode := argsCode ++ "    call " ++ fname ++ "\n"
      let cleanup :=
        if arguments.length > 0 then
          "    add rsp, " ++ toString (arguments.length * 8) ++ "\n"
        else ""
      (g1, .ok (callCode ++ cleanup ++ "    push rax\n"))
  | .assignment target value _ =>
    match generateExpression g value with
    | (g1, .error e) => (g1, .error e)
    | (g1, .ok valueCode) =>
      match lookupVar g1.localVariables target with
      | none => (g1, .error .cgErr)
      | some offset =>
        (g1, .ok (valueCode ++ "    pop rax\n" ++
          "    mov [rbp" ++ toString offset ++ "], rax\n" ++ "    push rax\n"))

/-- The `call.arguments.iter().rev()` loop of `generate_call_expression`: the last
argument is generated (and emitted) first. -/
def generateArgsRev (g : GenState) : List Expression → GenState × CompilerResult String
  | [] => (g, .ok "")
  | arg :: rest =>
    match generateArgsRev g rest with
    | (g1, .error e) => (g1, .error e)
    | (g1, .ok restCode) =>
      match generateExpression g1 arg with
      | (g2, .error e) => (g2, .error e)
      | (g2, .ok argCode) => (g2, .ok (restCode ++ argCode))

end

/-- `CodeGenerator::generate_declaration`: allocate the next stack slot, then emit
the initializer store, if any. -/
def generateDeclaration (g : GenState) (name : String) (initializer : Option Expression) :
    GenState × CompilerResult String :=
  let offset := g.stackOffset - 8
  let g1 := { g with stackOffset := offset, localVariables := insertVar g.localVariables name offset }
  match initializer with
  | none => (g1, .ok "")
  | some init =>
    match generateExpression g1 init with
    | (g2, .error e) => (g2, .error e)
    | (g2, .ok code) =>
      (g2, .ok (code ++ "    pop rax\n" ++ "    mov [rbp" ++ toString offset ++ "], rax\n"))

/-- `CodeGenerator::generate_assignment`. -/
def generateAssignment (g : GenState) (target : String) (value : Expression) :
    GenState × CompilerResult String :=
  match generateExpression g value with
  | (g1, .error e) => (g1, .error e)
  | (g1, .ok valueCode) =>
    match lookupVar g1.localVariables target with
    | none => (g1, .error .cgErr)
    | some offset =>
      (g1, .ok (valueCode ++ "    pop rax\n" ++ "    mov [rbp" ++ toString offset ++ "], rax\n"))

/-- `CodeGenerator::generate_return_statement`. -/
def generateReturn (g : GenState) (value : Option Expression) : GenState × CompilerResult String :=
  match value with
  | none => (g, .ok ("    mov rsp, rbp\n" ++ "    pop rbp\n" ++ "    ret\n"))
  | some v =>
    match generateExpression g v with
    | (g1, .error e) => (g1, .error e)
    | (g1, .ok code) =>
      (g1, .ok (code ++ "    pop rax\n" ++ "    mov rsp, rbp\n" ++ "    pop rbp\n" ++ "    ret\n"))

/-- The `for (i, param) in func.parameters.iter().enumerate()` loop of
`generate_function`: parameter `i` (0-based) gets frame offset `-(i+1)*8`. -/
def insertParamOffsets : List (String × Int) → List Parameter → Nat → List (String × Int)
  | vars, [], _ => vars
  | vars, p :: ps, i => insertParamOffsets (insertVar vars p.name (-((i : Int) + 1) * 8)) ps (i + 1)

/-- The generator state in which `generate_function` generates the body: the saved
`current_function` replaced by this function's name, `local_variables` taken (so the
table restarts empty) and refilled with the parameter offsets, `stack_offset` reset
to 0. -/
def functionEntryState (g : GenState) (name : String) (parameters : List Parameter) : GenState :=
  { g with
    currentFunction := some name
    localVariables := insertParamOffsets [] parameters 0
    stackOffset := 0 }

/-- The fixed prologue text of `generate_function` (the frame reserves `8 * 10`
bytes of local space regardless of the declaration count). -/
def functionPrologue (name : String) : String :=
  name ++ ":\n" ++ "    push rbp\n" ++ "    mov rbp, rsp\n" ++ "    sub rsp, 80\n"

/-- The fixed epilogue text of `generate_function`. -/
def functionEpilogue : String :=
  "    mov rsp, rbp\n" ++ "    pop rbp\n" ++ "    ret\n\n"

mutual

/-- `CodeGenerator::generate_statement`; `generate_function` is inlined in the
`function` arm (on an error inside the body its early `?` return skips the state
restoration, as in the Rust). Note the `expression` arm: the Rust discards the
expression's generated code and returns only the `pop`. -/
def generateStatement (g : GenState) : Statement → GenState × CompilerResult String
  | .expression expression _ =>
    match generateExpression g expression with
    | (g1, .error e) => (g1, .error e)
    | (g1, .ok _) => (g1, .ok "    pop rax\n")
  | .declaration name _ initializer _ => generateDeclaration g name initializer
  | .assignment target value _ => generateAssignment g target value
  | .ifS condition thenBranch elseBranch _ =>
    let (elseLabel, g1) := generateLabel g "else"
    let (endLabel, g2) := generateLabel g1 "endif"
    match generateExpression g2 condition with
    | (g3, .error e) => (g3, .error e)
    | (g3, .ok condCode) =>
      match generateStatement g3 thenBranch with
      | (g4, .error e) => (g4, .error e)
      | (g4, .ok thenCode) =>
        let head := condCode ++ "    pop rax\n" ++ "    cmp rax, 0\n" ++
          "    je " ++ elseLabel ++ "\n" ++ thenCode ++ "    jmp " ++ endLabel ++ "\n" ++
          elseLabel ++ ":\n"
        match generateOptStatement g4 elseBranch with
        | (g5, .error e) => (g5, .error e)
        | (g5, .ok elseCode) => (g5, .ok (head ++ elseCode ++ endLabel ++ ":\n"))
  | .whileS condition body _ =>
    let (loopLabel, g1) := generateLabel g "while"
    let (endLabel, g2) := generateLabel g1 "endwhile"
    match generateExpression g2 condition with
    | (g3, .error e) => (g3, .error e)
    | (g3, .ok condCode) =>
      match generateStatement g3 body with
      | (g4, .error e) => (g4, .error e)
      | (g4, .ok bodyCode) =>
        (g4, .ok (loopLabel ++ ":\n" ++ condCode ++ "    pop rax\n" ++ "    cmp rax, 0\n" ++
          "    je " ++ endLabel ++ "\n" ++ bodyCode ++ "    jmp " ++ loopLabel ++ "\n" ++
          endLabel ++ ":\n"))
  | .function name parameters _ body _ =>
    let oldFunction := g.currentFunction
    let oldVariables := g.localVariables
    let oldStackOffset := g.stackOffset
    match generateBlock (functionEntryState g name parameters) body with
    | (g1, .error e) => (g1, .error e)
    | (g1, .ok bodyCode) =>
      ({ g1 with
          currentFunction := oldFunction
          localVariables := oldVariables
          stackOffset := oldStackOffset },
        .ok (functionPrologue name ++ bodyCode ++ functionEpilogue))
  | .ret value _ => generateReturn g value
  | .block b => generateBlock g b

/-- The `if let Some(else_branch)` part of `generate_if_statement` (an absent else
branch contributes no code). -/
def generateOptStatement (g : GenState) : Option Statement → GenState × CompilerResult String
  | none => (g, .ok "")
  | some st => generateStatement g st

/-- `CodeGenerator::generate_block_statement`. -/
def generateBlock (g : GenState) : BlockStmt → GenState × CompilerResult String
  | .mk statements _ => generateStatements g statements

/-- The statement loop shared by `generate` and `generate_block_statement`. -/
def generateStatements (g : GenState) : List Statement → GenState × CompilerResult String
  | [] => (g, .ok "")
  | stmt :: rest =>
    match generateStatement g stmt with
    | (g1, .error e) => (g1, .error e)
    | (g1, .ok code) =>
      match generateStatements g1 rest with
      | (g2, .error e) => (g2, .error e)
      | (g2, .ok restCode) => (g2, .ok (code ++ restCode))

end

/-- The data-section lines of `generate`: one `label: db "text", 0` line per entry
of the string-literal table it iterates. -/
def dataLines : List (String × String) → String
  | [] => ""
  | (s, label) :: rest => label ++ ": db \"" ++ s ++ "\", 0\n" ++ dataLines rest

/-- The default process-entry block appended by `generate`. -/
def entryBlock : String :=
  "\n_start:\n" ++ "    call main\n" ++ "    mov rax, 60\n" ++ "    xor rdi, rdi\n" ++ "    syscall\n"

/-- `CodeGenerator::generate`: the data section is emitted from the string-literal
table as it stands *on entry* (before any statement has been generated), then the
text section, then — whenever `current_function` is `None`, which the per-function
save/restore guarantees after every successful statement — the entry block. -/
def generate (g : GenState) (program : Program) : GenState × CompilerResult String :=
  let header :=
    "section .data\n" ++ dataLines g.stringLiterals ++
    "\nsection .text\n" ++ "global _start\n\n"
  match generateStatements g program.statements with
  | (g1, .error e) => (g1, .error e)
  | (g1, .ok body) =>
    if !g1.currentFunction.isSome then (g1, .ok (header ++ body ++ entryBlock))
    else (g1, .ok (header ++ body))

/-! ### The pipeline (`lib.rs`, `Compiler::compile`) -/

/-- `Compiler::compile` at the default configuration (optimization level 0, so the
no-op optimizer hook is skipped): fresh `Lexer`, `Parser`, `SemanticAnalyzer` and
`CodeGenerator` instances are constructed for every invocation. -/
def compile (source : List Char) : Except CompilerError String :=
  match tokenize source with
  | .error e => .error e
  | .ok tokens =>
    match parse tokens with
    | .error e => .error e
    | .ok ast =>
      match analyzeProgram ast with
      | (_, .error e) => .error e
      | (_, .ok ()) =>
        match generate GenState.new ast with
        | (_, .error e) => .error e
        | (_, .ok assembly) => .ok assembly

/-- Running the full pipeline twice on the same source, each run constructing its
own fresh instances, as `Compiler::compile` does per invocation. -/
def compileTwice (source : List Char) : Except CompilerError String × Except CompilerError String :=
  (compile source, compile source)

/-! ### Observation helpers used by the theorems -/

/-- Whether an expression parsed as a bare identifier (the shape test of
`Parser::assignment`). -/
def Expression.isIdentifier : Expression → Bool
  | .identifier _ _ => true
  | _ => false

/-- Whether `pat` is a prefix of `l`. -/
def listStartsWith : List Char → List Char → Bool
  | _, [] => true
  | [], _ :: _ => false
  | c :: cs, p :: ps => c = p && listStartsWith cs ps

/-- Number of (possibly overlapping) occurrences of `pat` in `l`. -/
def countOccs (pat : List Char) : List Char → Nat
  | [] => 0
  | c :: cs => (if listStartsWith (c :: cs) pat then 1 else 0) + countOccs pat cs

/-- Number of occurrences of `pat` inside `s`. -/
def countSubstr (s pat : String) : Nat :=
  countOccs pat.toList s.toList

/-- The payload of a successful result (`""` on an error; used only where success
has been asserted separately). -/
def okString : Except CompilerError String → String
  | .ok s => s
  | .error _ => ""

/-- Whether a result is a success. -/
def resultIsOk {α : Type} : Except CompilerError α → Bool
  | .ok _ => true
  | .error _ => false

/-- An arbitrary fixed location for hand-built ASTs (the analyzer and generator
read locations only to decorate errors). -/
def someLoc : Location := ⟨1, 1, 1⟩

/-- `var x: int = 1; { var x: int = 2; }` — the inner declaration only shadows an
outer-scope binding; no name is redeclared in its own immediate scope. -/
def shadowProgram : Program :=
  ⟨[.declaration "x" .int (some (.literal (.integer 1) someLoc)) ⟨1, 1, 3⟩,
    .block ⟨[.declaration "x" .int (some (.literal (.integer 2) someLoc)) ⟨1, 19, 3⟩], ⟨1, 17, 1⟩⟩]⟩

/-- `func main() -> int { var a: string = "hi"; var b: string = "hi"; return 0; }` —
two string literals with identical text. -/
def twoLiteralProgram : Program :=
  ⟨[.function "main" [] .int
      ⟨[.declaration "a" .string (some (.literal (.string "hi") someLoc)) someLoc,
        .declaration "b" .string (some (.literal (.string "hi") someLoc)) someLoc,
        .ret (some (.literal (.integer 0) someLoc)) someLoc], someLoc⟩
      someLoc]⟩

/-- `func main() -> int { return 42; }` — a program that does define the entry
function. -/
def mainOnlyProgram : Program :=
  ⟨[.function "main" [] .int
      ⟨[.ret (some (.literal (.integer 42) someLoc)) someLoc], someLoc⟩
      someLoc]⟩

/-- A block whose single statement refers to an undeclared name, so its analysis
error-returns early. -/
def failingBlock : BlockStmt :=
  ⟨[.expression (.identifier "x" someLoc) someLoc], someLoc⟩

/-- The lexer output for `a = b = 1;`. -/
def c8ChainTokens : List TokenInfo :=
  [⟨.identifier "a", ⟨1, 1, 1⟩⟩, ⟨.assign, ⟨1, 3, 1⟩⟩, ⟨.identifier "b", ⟨1, 5, 1⟩⟩,
   ⟨.assign, ⟨1, 7, 1⟩⟩, ⟨.integer 1, ⟨1, 9, 1⟩⟩, ⟨.semicolon, ⟨1, 10, 1⟩⟩, ⟨.eof, ⟨1, 11, 0⟩⟩]

/-- The lexer output for `1 = 2;` — a non-identifier left-hand side of `=`. -/
def c8BadTokens : List TokenInfo :=
  [⟨.integer 1, ⟨1, 1, 1⟩⟩, ⟨.assign, ⟨1, 3, 1⟩⟩, ⟨.integer 2, ⟨1, 5, 1⟩⟩,
   ⟨.semicolon, ⟨1, 6, 1⟩⟩, ⟨.eof, ⟨1, 7, 0⟩⟩]

/-! ## Theorems -/

set_option maxRecDepth 16384

/-- C1, counterexample: the claim says a name bound only in a strictly outer scope
may be redeclared in a nested scope (shadowing) without error and that `analyze`
accepts such a program. On `var x: int = 1; { var x: int = 2; }` — where the inner
declaration only shadows the outer `x` — `analyze` instead reports a (semantic)
redefinition error at the inner declaration, because `analyze_declaration`'s
pre-check calls `Scope::resolve`, which walks the whole parent chain. -/
theorem c1_shadowing_rejected :
    (analyzeProgram shadowProgram).2 = .error (.semErr (some 1) (some 19)) := rfl

/-- C2, evaluation at the failing input: on a program containing the string literal
`"hi"` twice, `generate` succeeds, yet its data section contains no `db` line at all
(the section is emitted from the literal table before any literal has been
collected), and the two occurrences push two *different* labels (`str_0`, then
`str_1`): `add_string_literal` assigns a fresh label on every call instead of
reusing the existing one. -/
theorem c2_duplicate_literal_behavior :
    resultIsOk (generate GenState.new twoLiteralProgram).2 = true ∧
    countSubstr (okString (generate GenState.new twoLiteralProgram).2) ": db" = 0 ∧
    countSubstr (okString (generate GenState.new twoLiteralProgram).2) "    push str_0\n" = 1 ∧
    countSubstr (okString (generate GenState.new twoLiteralProgram).2) "    push str_1\n" = 1 :=
  ⟨rfl, rfl, rfl, rfl⟩

/-- C3, counterexample: the claim says the default process-entry block is emitted
if and only if the program defines no entry point, and that it terminates with
`main`'s result as exit status. On `func main() -> int { return 42; }` — which does
define the entry function — the block is emitted anyway (the per-function
save/restore leaves `current_function` as `None` before the check), and its text
zeroes `rdi` (`xor rdi, rdi`), so the process exits with status 0, not with
`main`'s result. -/
theorem c3_entry_block_always_emitted :
    resultIsOk (generate GenState.new mainOnlyProgram).2 = true ∧
    countSubstr (okString (generate GenState.new mainOnlyProgram).2) entryBlock = 1 ∧
    entryBlock = "\n_start:\n    call main\n    mov rax, 60\n    xor rdi, rdi\n    syscall\n" :=
  ⟨rfl, rfl, rfl⟩

/-- C4, counterexample: the claim says the current-scope state is restored also on
early error return. Analyzing a block whose statement fails leaves the analyzer's
current scope as the *block* scope (its parent is the entry scope) instead of
restoring the entry scope, whose own parent is `none`. -/
theorem c4_no_restore_on_error :
    (analyzeBlockStatement initialAnalyzerState failingBlock).2 = .error (.semErr (some 1) (some 1)) ∧
    (analyzeBlockStatement initialAnalyzerState failingBlock).1.currentScope.parent
      = some initialAnalyzerState.currentScope ∧
    initialAnalyzerState.currentScope.parent = none :=
  ⟨rfl, rfl, rfl⟩

mutual

/-- Expression analysis never touches the analyzer state: no scope is pushed or
popped and no symbol defined while typing an expression. -/
theorem anExpr_state : ∀ (s : AnalyzerState) (e : Expression), (analyzeExpression s e).1 = s
  | s, .literal v loc => by
    unfold analyzeExpression
    rfl
  | s, .identifier name _ => by
    unfold analyzeExpression
    split <;> rfl
  | s, .binary l _ r _ => by
    unfold analyzeExpression
    split
    · rename_i s1 e heq
      have h1 := anExpr_state s l
      rw [heq] at h1
      exact h1
    · rename_i s1 lt heq
      have h1 := anExpr_state s l
      rw [heq] at h1
      split
      · rename_i s2 e heq2
        have h2 := anExpr_state s1 r
        rw [heq2] at h2
        exact h2.trans h1
      · rename_i s2 rt heq2
        have h2 := anExpr_state s1 r
        rw [heq2] at h2
        exact h2.trans h1
  | s, .unary _ operand _ => by
    unfold analyzeExpression
    split
    · rename_i s1 e heq
      have h1 := anExpr_state s operand
      rw [heq] at h1
      exact h1
    · rename_i s1 t heq
      have h1 := anExpr_state s operand
      rw [heq] at h1
      exact h1
  | s, .call fname arguments loc => by
    unfold analyzeExpression
    split
    · rfl
    · rename_i symbol heq
      split
      · rfl
      · split
        · rfl
        · split
          · rename_i s1 e heq2
            have h1 := anCallArgs_state s arguments symbol.parameters loc
            rw [heq2] at h1
            exact h1
          · rename_i s1 u heq2
            have h1 := anCallArgs_state s arguments symbol.parameters loc
            rw [heq2] at h1
            exact h1
  | s, .assignment target value _ => by
    unfold analyzeExpression
    split
    · rfl
    · rename_i symbol heq
      split
      · rename_i s1 e heq2
        have h1 := anExpr_state s value
        rw [heq2] at h1
        exact h1
      · rename_i s1 vt heq2
        have h1 := anExpr_state s value
        rw [heq2] at h1
        split <;> exact h1

/-- The call-argument loop never touches the analyzer state either. -/
theorem anCallArgs_state : ∀ (s : AnalyzerState) (args : List Expression) (tys : List Ty)
    (loc : Location), (analyzeCallArgs s args tys loc).1 = s
  | _, [], tys, _ => by
    unfold analyzeCallArgs
    cases tys <;> rfl
  | _, _ :: _, [], _ => by
    unfold analyzeCallArgs
    rfl
  | s, arg :: args, ty :: tys, loc => by
    unfold analyzeCallArgs
    split
    · rename_i s1 e heq
      have h1 := anExpr_state s arg
      rw [heq] at h1
      exact h1
    · rename_i s1 argTy heq
      have h1 := anExpr_state s arg
      rw [heq] at h1
      split
      · exact h1
      · exact Eq.trans (anCallArgs_state s1 args tys loc) h1

end

/-- `analyze_declaration` never touches the return-type slot. -/
theorem anDecl_frt (s : AnalyzerState) (name : String) (varType : Ty)
    (initializer : Option Expression) (loc : Location) :
    ((analyzeDeclaration s name varType initializer loc).1).functionReturnType
      = s.functionReturnType := by
  unfold analyzeDeclaration
  split
  · rfl
  · split
    · rename_i init
      split
      · rename_i s1 e heq
        have h1 := anExpr_state s init
        rw [heq] at h1
        rw [h1]
      · rename_i s1 t heq
        have h1 := anExpr_state s init
        rw [heq] at h1
        split
        · rw [h1]
        · unfold defineVariable
          split
          · rw [h1]
          · have h1' : s1 = s := h1
            show s1.functionReturnType = s.functionReturnType
            rw [h1']
    · unfold defineVariable
      split <;> rfl

/-- `analyze_assignment` never touches the analyzer state at all. -/
theorem anAssign_state (s : AnalyzerState) (target : String) (value : Expression)
    (loc : Location) : (analyzeAssignmentStatement s target value loc).1 = s := by
  unfold analyzeAssignmentStatement
  split
  · rfl
  · split
    · rfl
    · split
      · rename_i s1 e heq
        have h1 := anExpr_state s value
        rw [heq] at h1
        exact h1
      · rename_i s1 t heq
        have h1 := anExpr_state s value
        rw [heq] at h1
        split <;> exact h1

/-- `analyze_return_statement` never touches the analyzer state at all. -/
theorem anReturn_state (s : AnalyzerState) (value : Option Expression) (loc : Location) :
    (analyzeReturnStatement s value loc).1 = s := by
  unfold analyzeReturnStatement
  split
  · rfl
  · split
    · rename_i v
      split
      · rename_i s1 e heq
        have h1 := anExpr_state s v
        rw [heq] at h1
        exact h1
      · rename_i s1 t heq
        have h1 := anExpr_state s v
        rw [heq] at h1
        split <;> exact h1
    · split <;> rfl

mutual

/-- Successful statement analysis restores the current-function-return-type slot. -/
theorem anStmt_frt : ∀ (s : AnalyzerState) (st : Statement) (s' : AnalyzerState),
    analyzeStatement s st = (s', .ok ()) → s'.functionReturnType = s.functionReturnType
  | s, .expression e loc, s', h => by
    unfold analyzeStatement at h
    split at h
    · simp at h
    · rename_i s1 t heq
      have h1 : s1 = s := anExpr_state s e |>.symm.trans (congrArg Prod.fst heq) |>.symm
      simp only [Prod.mk.injEq] at h
      rw [← h.1, h1]
  | s, .declaration name varType init loc, s', h => by
    unfold analyzeStatement at h
    have h2 : (analyzeDeclaration s name varType init loc).1 = s' := congrArg Prod.fst h
    rw [← h2]
    exact anDecl_frt s name varType init loc
  | s, .assignment target value loc, s', h => by
    unfold analyzeStatement at h
    have h2 : s = s' := (anAssign_state s target value loc).symm.trans (congrArg Prod.fst h)
    rw [← h2]
  | s, .ifS condition thenBranch elseBranch loc, s', h => by
    unfold analyzeStatement at h
    split at h
    · simp at h
    · rename_i s1 t heq
      have h1 : s1 = s := anExpr_state s condition |>.symm.trans (congrArg Prod.fst heq) |>.symm
      split at h
      · simp at h
      · split at h
        · simp at h
        · rename_i s2 heq2
          have h2 := anStmt_frt s1 thenBranch s2 heq2
          have h3 := anOptStmt_frt s2 elseBranch s' h
          rw [h3, h2, h1]
  | s, .whileS condition body loc, s', h => by
    unfold analyzeStatement at h
    split at h
    · simp at h
    · rename_i s1 t heq
      have h1 : s1 = s := anExpr_state s condition |>.symm.trans (congrArg Prod.fst heq) |>.symm
      split at h
      · simp at h
      · have h2 := anStmt_frt s1 body s' h
        rw [h2, h1]
  | s, .function name parameters returnType body loc, s', h => by
    unfold analyzeStatement at h
    split at h
    · simp at h
    · split at h
      · simp at h
      · split at h
        · simp at h
        · split at h
          · simp at h
          · simp only [Prod.mk.injEq] at h
            rw [← h.1]
  | s, .ret value loc, s', h => by
    unfold analyzeStatement at h
    have h2 : s = s' := (anReturn_state s value loc).symm.trans (congrArg Prod.fst h)
    rw [← h2]
  | s, .block b, s', h => by
    unfold analyzeStatement at h
    exact (anBlock_restore s b s' h).2

/-- The optional else-branch analysis restores the return-type slot on success. -/
theorem anOptStmt_frt : ∀ (s : AnalyzerState) (ost : Option Statement) (s' : AnalyzerState),
    analyzeOptStatement s ost = (s', .ok ()) → s'.functionReturnType = s.functionReturnType
  | s, none, s', h => by
    unfold analyzeOptStatement at h
    simp only [Prod.mk.injEq] at h
    rw [← h.1]
  | s, some st, s', h => by
    unfold analyzeOptStatement at h
    exact anStmt_frt s st s' h

/-- A successful statement-list analysis restores the return-type slot. -/
theorem anStmts_frt : ∀ (s : AnalyzerState) (l : List Statement) (s' : AnalyzerState),
    analyzeStatements s l = (s', .ok ()) → s'.functionReturnType = s.functionReturnType
  | s, [], s', h => by
    unfold analyzeStatements at h
    simp only [Prod.mk.injEq] at h
    rw [← h.1]
  | s, stmt :: rest, s', h => by
    unfold analyzeStatements at h
    split at h
    · simp at h
    · rename_i s1 heq
      exact (anStmts_frt s1 rest s' h).trans (anStmt_frt s stmt s1 heq)

/-- A *successful* block analysis restores both the current scope and the
return-type slot to their entry values. -/
theorem anBlock_restore : ∀ (s : AnalyzerState) (b : BlockStmt) (s' : AnalyzerState),
    analyzeBlockStatement s b = (s', .ok ()) →
    s'.currentScope = s.currentScope ∧ s'.functionReturnType = s.functionReturnType
  | s, .mk statements loc, s', h => by
    unfold analyzeBlockStatement at h
    split at h
    · simp at h
    · rename_i s1 heq
      have h1 := anStmts_frt _ statements s1 heq
      simp only [Prod.mk.injEq] at h
      constructor
      · rw [← h.1]
      · rw [← h.1]
        exact h1

end

/-- A name that does not resolve anywhere in the scope chain is, in particular,
absent from the innermost scope's own map. -/
theorem resolve_none_lookup (sc : Scope) (name : String)
    (h : ¬(Scope.resolve sc name).isSome = true) :
    lookupAssoc sc.symbols name = none := by
  cases sc with
  | mk symbols parent =>
    show lookupAssoc symbols name = none
    unfold Scope.resolve at h
    cases hl : lookupAssoc symbols name with
    | none => rfl
    | some sym =>
      rw [hl] at h
      simp at h

/-- C1, amended: a declaration is reported as a redefinition (semantic) error
exactly when its name resolves *anywhere* in the current scope chain — the
immediate scope or any enclosing scope, built-ins included — because the pre-check
uses `Scope::resolve`; consequently shadowing an outer-scope name is also rejected
and `analyze` rejects such a program. (Stated for initializer-free declarations,
where the redefinition check is the only error source.) -/
theorem c1_redefinition_uses_full_chain (s : AnalyzerState) (name : String) (varType : Ty)
    (loc : Location) :
    (analyzeDeclaration s name varType none loc).2 =
      (if (s.currentScope.resolve name).isSome then
        .error (.semErr (some loc.line) (some loc.column))
      else .ok ()) := by
  unfold analyzeDeclaration
  split
  · rfl
  · rename_i hres
    show (defineVariable s name varType).2 = .ok ()
    have hnone := resolve_none_lookup s.currentScope name hres
    unfold defineVariable Scope.define
    rw [show containsKey s.currentScope.symbols name = false from by
      unfold containsKey
      rw [hnone]
      rfl]
    rfl

/-- C1 witness: at a concrete state, `print` (a built-in, hence resolvable in the
chain) is rejected, a fresh name is accepted. -/
theorem c1_redefinition_uses_full_chain_witness :
    (analyzeDeclaration initialAnalyzerState "print" Ty.int none someLoc).2
      = .error (.semErr (some 1) (some 1)) ∧
    (analyzeDeclaration initialAnalyzerState "fresh" Ty.int none someLoc).2 = .ok () := by
  constructor
  · rw [c1_redefinition_uses_full_chain initialAnalyzerState "print" Ty.int someLoc]
    rfl
  · rw [c1_redefinition_uses_full_chain initialAnalyzerState "fresh" Ty.int someLoc]
    rfl

/-- C4, amended: the scope and return-type slot are restored on *normal completion*
of a nested scope: a successful block analysis restores both to their entry values,
and a successful function-declaration analysis restores the return-type slot and
leaves as current scope exactly the entry scope extended with the function's own
symbol (the value saved when the body scope was entered). On an early error return
the nested state is left in place, as the counterexample shows; analysis halts on
the first error, so the stale state is never consulted. -/
theorem c4_restore_on_normal_completion :
    (∀ (s : AnalyzerState) (b : BlockStmt) (s' : AnalyzerState),
        analyzeBlockStatement s b = (s', .ok ()) →
        s'.currentScope = s.currentScope ∧ s'.functionReturnType = s.functionReturnType) ∧
    (∀ (s : AnalyzerState) (name : String) (parameters : List Parameter) (returnType : Ty)
        (body : BlockStmt) (loc : Location) (s' : AnalyzerState),
        analyzeStatement s (.function name parameters returnType body loc) = (s', .ok ()) →
        s'.functionReturnType = s.functionReturnType ∧
        ∃ sc, s.currentScope.define (functionSymbol name parameters returnType) = .ok sc ∧
          s'.currentScope = sc) := by
  constructor
  · exact fun s b s' h => anBlock_restore s b s' h
  · intro s name parameters returnType body loc s' h
    unfold analyzeStatement at h
    split at h
    · simp at h
    · split at h
      · simp at h
      · rename_i definedScope hdef
        split at h
        · simp at h
        · split at h
          · simp at h
          · simp only [Prod.mk.injEq] at h
            refine ⟨?_, definedScope, hdef, ?_⟩
            · rw [← h.1]
            · rw [← h.1]

/-- C4 witness: a concrete successful block analysis restores scope and slot. -/
theorem c4_restore_on_normal_completion_witness :
    (analyzeBlockStatement initialAnalyzerState (⟨[], someLoc⟩ : BlockStmt)).1.currentScope
      = initialAnalyzerState.currentScope ∧
    (analyzeBlockStatement initialAnalyzerState (⟨[], someLoc⟩ : BlockStmt)).1.functionReturnType
      = initialAnalyzerState.functionReturnType :=
  c4_restore_on_normal_completion.1 initialAnalyzerState ⟨[], someLoc⟩ _ rfl

mutual

/-- Expression generation touches only the label counter and the string-literal
table: `current_function`, the variable-offset table and the frame-size counter are
untouched (also on the error path). -/
theorem genExpr_frame : ∀ (g : GenState) (e : Expression),
    (generateExpression g e).1.currentFunction = g.currentFunction ∧
    (generateExpression g e).1.localVariables = g.localVariables ∧
    (generateExpression g e).1.stackOffset = g.stackOffset
  | g, .literal v _ => by
    unfold generateExpression generateLiteral addStringLiteral
    cases v <;> exact ⟨rfl, rfl, rfl⟩
  | g, .identifier name _ => by
    unfold generateExpression generateIdentifier
    split <;> exact ⟨rfl, rfl, rfl⟩
  | g, .binary l _ r _ => by
    unfold generateExpression
    split
    · rename_i g1 e heq
      have h1 := genExpr_frame g r
      rw [heq] at h1
      exact h1
    · rename_i g1 rc heq
      have h1 := genExpr_frame g r
      rw [heq] at h1
      split
      · rename_i g2 e heq2
        have h2 := genExpr_frame g1 l
        rw [heq2] at h2
        exact ⟨h2.1.trans h1.1, h2.2.1.trans h1.2.1, h2.2.2.trans h1.2.2⟩
      · rename_i g2 lc heq2
        have h2 := genExpr_frame g1 l
        rw [heq2] at h2
        exact ⟨h2.1.trans h1.1, h2.2.1.trans h1.2.1, h2.2.2.trans h1.2.2⟩
  | g, .unary _ operand _ => by
    unfold generateExpression
    split
    · rename_i g1 e heq
      have h1 := genExpr_frame g operand
      rw [heq] at h1
      exact h1
    · rename_i g1 code heq
      have h1 := genExpr_frame g operand
      rw [heq] at h1
      exact h1
  | g, .call fname arguments _ => by
    unfold generateExpression
    split
    · rename_i g1 e heq
      have h1 := genArgsRev_frame g arguments
      rw [heq] at h1
      exact h1
    · rename_i g1 code heq
      have h1 := genArgsRev_frame g arguments
      rw [heq] at h1
      exact h1
  | g, .assignment target value _ => by
    unfold generateExpression
    split
    · rename_i g1 e heq
      have h1 := genExpr_frame g value
      rw [heq] at h1
      exact h1
    · rename_i g1 code heq
      have h1 := genExpr_frame g value
      rw [heq] at h1
      split <;> exact h1

/-- As `genExpr_frame`, for the reversed argument loop. -/
theorem genArgsRev_frame : ∀ (g : GenState) (args : List Expression),
    (generateArgsRev g args).1.currentFunction = g.currentFunction ∧
    (generateArgsRev g args).1.localVariables = g.localVariables ∧
    (generateArgsRev g args).1.stackOffset = g.stackOffset
  | g, [] => by
    unfold generateArgsRev
    exact ⟨rfl, rfl, rfl⟩
  | g, arg :: rest => by
    unfold generateArgsRev
    split
    · rename_i g1 e heq
      have h1 := genArgsRev_frame g rest
      rw [heq] at h1
      exact h1
    · rename_i g1 code heq
      have h1 := genArgsRev_frame g rest
      rw [heq] at h1
      split
      · rename_i g2 e heq2
        have h2 := genExpr_frame g1 arg
        rw [heq2] at h2
        exact ⟨h2.1.trans h1.1, h2.2.1.trans h1.2.1, h2.2.2.trans h1.2.2⟩
      · rename_i g2 ac heq2
        have h2 := genExpr_frame g1 arg
        rw [heq2] at h2
        exact ⟨h2.1.trans h1.1, h2.2.1.trans h1.2.1, h2.2.2.trans h1.2.2⟩

end

/-- `generate_declaration` never changes `current_function`. -/
theorem genDecl_cf (g : GenState) (name : String) (initializer : Option Expression) :
    (generateDeclaration g name initializer).1.currentFunction = g.currentFunction := by
  unfold generateDeclaration
  dsimp only
  split
  · rfl
  · rename_i init
    split
    · rename_i g2 e heq
      have h1 := genExpr_frame { g with
        stackOffset := g.stackOffset - 8
        localVariables := insertVar g.localVariables name (g.stackOffset - 8) } init
      rw [heq] at h1
      exact h1.1
    · rename_i g2 code heq
      have h1 := genExpr_frame { g with
        stackOffset := g.stackOffset - 8
        localVariables := insertVar g.localVariables name (g.stackOffset - 8) } init
      rw [heq] at h1
      exact h1.1

/-- `generate_assignment` never changes `current_function`. -/
theorem genAssign_cf (g : GenState) (target : String) (value : Expression) :
    (generateAssignment g target value).1.currentFunction = g.currentFunction := by
  unfold generateAssignment
  split
  · rename_i g1 e heq
    have h1 := genExpr_frame g value
    rw [heq] at h1
    exact h1.1
  · rename_i g1 code heq
    have h1 := genExpr_frame g value
    rw [heq] at h1
    split <;> exact h1.1

/-- `generate_return_statement` never changes `current_function`. -/
theorem genReturn_cf (g : GenState) (value : Option Expression) :
    (generateReturn g value).1.currentFunction = g.currentFunction := by
  unfold generateReturn
  split
  · rfl
  · rename_i v
    split
    · rename_i g1 e heq
      have h1 := genExpr_frame g v
      rw [heq] at h1
      exact h1.1
    · rename_i g1 code heq
      have h1 := genExpr_frame g v
      rw [heq] at h1
      exact h1.1

mutual

/-- Successful statement generation restores `current_function` (each function arm
saves and, on success, restores it; no other arm writes it). -/
theorem genStmt_cf : ∀ (g : GenState) (st : Statement) (g' : GenState) (code : String),
    generateStatement g st = (g', .ok code) → g'.currentFunction = g.currentFunction
  | g, .expression e loc, g', code, h => by
    unfold generateStatement at h
    split at h
    · simp at h
    · rename_i g1 c heq
      have h1 := genExpr_frame g e
      rw [heq] at h1
      simp only [Prod.mk.injEq] at h
      rw [← h.1]
      exact h1.1
  | g, .declaration name varType init loc, g', code, h => by
    unfold generateStatement at h
    have h2 : (generateDeclaration g name init).1 = g' := congrArg Prod.fst h
    rw [← h2]
    exact genDecl_cf g name init
  | g, .assignment target value loc, g', code, h => by
    unfold generateStatement at h
    have h2 : (generateAssignment g target value).1 = g' := congrArg Prod.fst h
    rw [← h2]
    exact genAssign_cf g target value
  | g, .ifS condition thenBranch elseBranch loc, g', code, h => by
    unfold generateStatement at h
    split at h
    rename_i elseLabel g1 heqL
    split at h
    rename_i endLabel g2 heqL2
    have hg1 : g.currentFunction = g2.currentFunction :=
      Eq.trans (congrArg (fun p => p.2.currentFunction) heqL)
        (congrArg (fun p => p.2.currentFunction) heqL2)
    split at h
    · simp at h
    · rename_i g3 condCode heq
      have h1 := genExpr_frame g2 condition
      rw [heq] at h1
      split at h
      · simp at h
      · rename_i g4 thenCode heq2
        have h2 := genStmt_cf _ thenBranch g4 thenCode heq2
        split at h
        · simp at h
        · rename_i g5 elseCode heq3
          have h3 := genOptStmt_cf g4 elseBranch g5 elseCode heq3
          simp only [Prod.mk.injEq] at h
          rw [← h.1, h3, h2, h1.1]
          exact hg1.symm
  | g, .whileS condition body loc, g', code, h => by
    unfold generateStatement at h
    split at h
    rename_i loopLabel g1 heqL
    split at h
    rename_i endLabel g2 heqL2
    have hg1 : g.currentFunction = g2.currentFunction :=
      Eq.trans (congrArg (fun p => p.2.currentFunction) heqL)
        (congrArg (fun p => p.2.currentFunction) heqL2)
    split at h
    · simp at h
    · rename_i g3 condCode heq
      have h1 := genExpr_frame g2 condition
      rw [heq] at h1
      split at h
      · simp at h
      · rename_i g4 bodyCode heq2
        have h2 := genStmt_cf _ body g4 bodyCode heq2
        simp only [Prod.mk.injEq] at h
        rw [← h.1, h2, h1.1]
        exact hg1.symm
  | g, .function name parameters returnType body loc, g', code, h => by
    unfold generateStatement at h
    split at h
    · simp at h
    · rename_i g1 bodyCode heq
      simp only [Prod.mk.injEq] at h
      rw [← h.1]
  | g, .ret value loc, g', code, h => by
    unfold generateStatement at h
    have h2 : (generateReturn g value).1 = g' := congrArg Prod.fst h
    rw [← h2]
    exact genReturn_cf g value
  | g, .block b, g', code, h => by
    unfold generateStatement at h
    exact genBlock_cf g b g' code h

/-- As `genStmt_cf`, for the optional else branch. -/
theorem genOptStmt_cf : ∀ (g : GenState) (ost : Option Statement) (g' : GenState) (code : String),
    generateOptStatement g ost = (g', .ok code) → g'.currentFunction = g.currentFunction
  | g, none, g', code, h => by
    unfold generateOptStatement at h
    simp only [Prod.mk.injEq] at h
    rw [← h.1]
  | g, some st, g', code, h => by
    unfold generateOptStatement at h
    exact genStmt_cf g st g' code h

/-- As `genStmt_cf`, for a statement list. -/
theorem genStmts_cf : ∀ (g : GenState) (l : List Statement) (g' : GenState) (code : String),
    generateStatements g l = (g', .ok code) → g'.currentFunction = g.currentFunction
  | g, [], g', code, h => by
    unfold generateStatements at h
    simp only [Prod.mk.injEq] at h
    rw [← h.1]
  | g, stmt :: rest, g', code, h => by
    unfold generateStatements at h
    split at h
    · simp at h
    · rename_i g1 c1 heq
      split at h
      · simp at h
      · rename_i g2 c2 heq2
        simp only [Prod.mk.injEq] at h
        rw [← h.1]
        exact (genStmts_cf g1 rest g2 c2 heq2).trans (genStmt_cf g stmt g1 c1 heq)

/-- As `genStmt_cf`, for a block. -/
theorem genBlock_cf : ∀ (g : GenState) (b : BlockStmt) (g' : GenState) (code : String),
    generateBlock g b = (g', .ok code) → g'.currentFunction = g.currentFunction
  | g, .mk statements loc, g', code, h => by
    unfold generateBlock at h
    exact genStmts_cf g statements g' code h

end

/-- C3, amended: on a fresh generator, `generate` *always* appends the default
process-entry block to a successful result — whether or not the program defines an
entry function — because `current_function` is saved and restored around every
function and hence is `None` again when the emission check runs; and that block
calls `main` and then terminates the process with exit status 0 (`xor rdi, rdi`),
discarding `main`'s result. -/
theorem c3_entry_block_unconditional (program : Program) (asm : String)
    (h : (generate GenState.new program).2 = .ok asm) :
    (∃ pre, asm = pre ++ entryBlock) ∧
    entryBlock = "\n_start:\n    call main\n    mov rax, 60\n    xor rdi, rdi\n    syscall\n" := by
  constructor
  · unfold generate at h
    split at h
    · simp at h
    · rename_i g1 body heq
      have hcf := genStmts_cf GenState.new program.statements g1 body heq
      rw [show GenState.new.currentFunction = none from rfl] at hcf
      rw [hcf] at h
      simp only [Option.isSome_none, Bool.not_false, if_true, Except.ok.injEq] at h
      exact ⟨_, h.symm⟩
  · rfl

/-- C3 amended witness: the entry block is present on a concrete program that does
define `main`. -/
theorem c3_entry_block_unconditional_witness :
    (∃ pre, okString (generate GenState.new mainOnlyProgram).2 = pre ++ entryBlock) ∧
    entryBlock = "\n_start:\n    call main\n    mov rax, 60\n    xor rdi, rdi\n    syscall\n" :=
  c3_entry_block_unconditional mainOnlyProgram _ rfl

/-- Inserting a key makes it retrievable. -/
theorem lookupVar_insert_self : ∀ (l : List (String × Int)) (k : String) (v : Int),
    lookupVar (insertVar l k v) k = some v
  | [], k, v => by simp [insertVar, lookupVar]
  | (k', w) :: rest, k, v => by
    unfold insertVar
    by_cases hk : k' = k
    · rw [if_pos hk]
      unfold lookupVar
      rw [if_pos hk]
    · rw [if_neg hk]
      unfold lookupVar
      rw [if_neg hk]
      exact lookupVar_insert_self rest k v

/-- Inserting a different key does not disturb a lookup. -/
theorem lookupVar_insert_other : ∀ (l : List (String × Int)) (k k' : String) (v : Int),
    k' ≠ k → lookupVar (insertVar l k' v) k = lookupVar l k
  | [], k, k', v, hne => by
    simp [insertVar, lookupVar]
    intro h
    exact absurd h hne
  | (k0, w) :: rest, k, k', v, hne => by
    unfold insertVar
    by_cases hk : k0 = k'
    · rw [if_pos hk]
      unfold lookupVar
      subst hk
      rw [if_neg hne, if_neg hne]
    · rw [if_neg hk]
      unfold lookupVar
      by_cases h0 : k0 = k
      · rw [if_pos h0, if_pos h0]
      · rw [if_neg h0, if_neg h0]
        exact lookupVar_insert_other rest k k' v hne

/-- Parameter-offset insertion leaves unrelated names untouched. -/
theorem lookupVar_insertParamOffsets_other :
    ∀ (ps : List Parameter) (vars : List (String × Int)) (j : Nat) (name : String),
    name ∉ ps.map Parameter.name →
    lookupVar (insertParamOffsets vars ps j) name = lookupVar vars name
  | [], vars, j, name, _ => rfl
  | q :: rest, vars, j, name, hmem => by
    unfold insertParamOffsets
    have hq : q.name ≠ name := by
      intro h
      exact hmem (by simp [h])
    have hrest : name ∉ rest.map Parameter.name := by
      intro h
      exact hmem (by simp [h])
    rw [lookupVar_insertParamOffsets_other rest _ (j + 1) name hrest]
    exact lookupVar_insert_other vars name q.name _ hq

/-- The parameter loop of `generate_function` assigns parameter `i` (0-based,
counting from `j`) the offset `-(j+i+1)*8`. -/
theorem lookupVar_insertParamOffsets :
    ∀ (ps : List Parameter) (vars : List (String × Int)) (j : Nat),
    (∀ q ∈ ps, lookupVar vars q.name = none) →
    (ps.map Parameter.name).Nodup →
    ∀ (i : Nat) (hi : i < ps.length),
      lookupVar (insertParamOffsets vars ps j) (ps.get ⟨i, hi⟩).name
        = some (-((j : Int) + (i : Int) + 1) * 8)
  | [], _, _, _, _, i, hi => absurd hi (Nat.not_lt_zero _)
  | q :: rest, vars, j, hfresh, hnodup, 0, hi => by
    unfold insertParamOffsets
    have hpair : (∀ x ∈ rest, ¬x.name = q.name) ∧ (List.map Parameter.name rest).Nodup := by
      simpa using hnodup
    have hget : ((q :: rest).get ⟨0, hi⟩) = q := rfl
    rw [hget]
    have hq : q.name ∉ rest.map Parameter.name := by
      intro hmem
      rcases List.mem_map.mp hmem with ⟨x, hx, hxe⟩
      exact hpair.1 x hx hxe
    rw [lookupVar_insertParamOffsets_other rest _ (j + 1) q.name hq]
    rw [lookupVar_insert_self]
    simp only [Option.some.injEq]
    push_cast
    ring
  | q :: rest, vars, j, hfresh, hnodup, i + 1, hi => by
    unfold insertParamOffsets
    have hpair : (∀ x ∈ rest, ¬x.name = q.name) ∧ (List.map Parameter.name rest).Nodup := by
      simpa using hnodup
    have hfresh' : ∀ r ∈ rest,
        lookupVar (insertVar vars q.name (-((j : Int) + 1) * 8)) r.name = none := by
      intro r hr
      have hq : q.name ≠ r.name := fun h => hpair.1 r hr h.symm
      rw [lookupVar_insert_other vars r.name q.name _ hq]
      exact hfresh r (List.mem_cons_of_mem q hr)
    have hi' : i < rest.length := Nat.lt_of_succ_lt_succ (by simpa using hi)
    have ih := lookupVar_insertParamOffsets rest _ (j + 1) hfresh' hpair.2 i hi'
    have hget : ((q :: rest).get ⟨i + 1, hi⟩) = rest.get ⟨i, hi'⟩ := rfl
    rw [hget]
    exact ih.trans (congrArg some (by push_cast; ring))

/-- `generate_declaration` allocates the next slot for the declared name: after it
runs, the name maps to `stack_offset - 8` relative to the state it started from
(the initializer's generation does not touch the offset table). -/
theorem genDecl_allocates (g : GenState) (dName : String) (dInit : Option Expression) :
    lookupVar ((generateDeclaration g dName dInit).1).localVariables dName
      = some (g.stackOffset - 8) := by
  unfold generateDeclaration
  dsimp only
  split
  · exact lookupVar_insert_self g.localVariables dName (g.stackOffset - 8)
  · rename_i init
    split
    · rename_i g2 e heq
      have hf := genExpr_frame { g with
        stackOffset := g.stackOffset - 8
        localVariables := insertVar g.localVariables dName (g.stackOffset - 8) } init
      rw [heq] at hf
      rw [hf.2.1]
      exact lookupVar_insert_self g.localVariables dName (g.stackOffset - 8)
    · rename_i g2 code heq
      have hf := genExpr_frame { g with
        stackOffset := g.stackOffset - 8
        localVariables := insertVar g.localVariables dName (g.stackOffset - 8) } init
      rw [heq] at hf
      rw [hf.2.1]
      exact lookupVar_insert_self g.localVariables dName (g.stackOffset - 8)

/-- C9: `generate_function` resets the frame-size counter to 0 and pre-assigns
parameter `i` (0-based) the frame offset `-8*(i+1)` — the first parameter gets
`-8` — and generating the body's first variable declaration from that entry state
allocates offset `0-8 = -8` for it too, so the first local shares its frame slot
with the first parameter. (`functionEntryState` is, by the definition of the
`function` arm of `generateStatement`, the state in which the body is generated;
parameter names are assumed distinct, since a duplicate name would overwrite the
earlier offset in the table.) -/
theorem c9_first_local_aliases_first_param (g : GenState) (name : String)
    (params : List Parameter) (p : Parameter) (ps : List Parameter)
    (dName : String) (dInit : Option Expression)
    (hp : params = p :: ps) (hnodup : (params.map Parameter.name).Nodup) :
    (functionEntryState g name params).stackOffset = 0 ∧
    (∀ (i : Nat) (hi : i < params.length),
      lookupVar (functionEntryState g name params).localVariables (params.get ⟨i, hi⟩).name
        = some (-((i : Int) + 1) * 8)) ∧
    lookupVar (functionEntryState g name params).localVariables p.name = some (-8) ∧
    lookupVar ((generateDeclaration (functionEntryState g name params) dName dInit).1).localVariables
      dName = some (-8) := by
  subst hp
  have hEntry : (functionEntryState g name (p :: ps)).localVariables
      = insertParamOffsets [] (p :: ps) 0 := rfl
  have hall : ∀ (i : Nat) (hi : i < (p :: ps).length),
      lookupVar (functionEntryState g name (p :: ps)).localVariables
        ((p :: ps).get ⟨i, hi⟩).name = some (-((i : Int) + 1) * 8) := by
    intro i hi
    have h := lookupVar_insertParamOffsets (p :: ps) [] 0 (fun _ _ => rfl) hnodup i hi
    rw [hEntry, h]
    simp only [Option.some.injEq]
    push_cast
    ring
  refine ⟨rfl, hall, ?_, ?_⟩
  · have h0 := hall 0 (Nat.succ_pos _)
    have hget : ((p :: ps).get ⟨0, Nat.succ_pos _⟩) = p := rfl
    rw [hget] at h0
    rw [h0]
    norm_num
  · rw [genDecl_allocates (functionEntryState g name (p :: ps)) dName dInit]
    rw [show (functionEntryState g name (p :: ps)).stackOffset = 0 from rfl]
    norm_num

/-- C9 witness: a one-parameter function whose body starts with a declaration —
`n` (the parameter) and `x` (the first local) both sit at `[rbp-8]`. -/
theorem c9_first_local_aliases_first_param_witness :
    (functionEntryState GenState.new "f" [⟨"n", .int, someLoc⟩]).stackOffset = 0 ∧
    lookupVar (functionEntryState GenState.new "f" [⟨"n", .int, someLoc⟩]).localVariables "n"
      = some (-8) ∧
    lookupVar ((generateDeclaration (functionEntryState GenState.new "f" [⟨"n", .int, someLoc⟩])
      "x" none).1).localVariables "x" = some (-8) := by
  have h := c9_first_local_aliases_first_param GenState.new "f" [⟨"n", .int, someLoc⟩]
    ⟨"n", .int, someLoc⟩ [] "x" none rfl (by simp)
  exact ⟨h.1, h.2.2.1, h.2.2.2⟩

/-- C6: `Int + Int` types as `Int`; `Int + Float` as `Float`; `Bool && Bool` as
`Bool`; `Int && Bool` is a type error; initializing an Int-declared variable with a
String fails, as does assigning a String to it; assigning an Int value to a
Float-declared variable succeeds (Int→Float widening). -/
theorem c6_type_rules :
    (analyzeExpression initialAnalyzerState
      (.binary (.literal (.integer 1) someLoc) .add (.literal (.integer 2) someLoc) someLoc)).2
        = .ok Ty.int ∧
    (analyzeExpression initialAnalyzerState
      (.binary (.literal (.integer 1) someLoc) .add (.literal (.float "1.5") someLoc) someLoc)).2
        = .ok Ty.float ∧
    (analyzeExpression initialAnalyzerState
      (.binary (.literal (.boolean true) someLoc) .and (.literal (.boolean false) someLoc) someLoc)).2
        = .ok Ty.bool ∧
    (analyzeExpression initialAnalyzerState
      (.binary (.literal (.integer 1) someLoc) .and (.literal (.boolean true) someLoc) someLoc)).2
        = .error (.typeErr (some 1) (some 1)) ∧
    (analyzeProgram ⟨[.declaration "x" .int (some (.literal (.string "hi") someLoc)) someLoc]⟩).2
        = .error (.typeErr (some 1) (some 1)) ∧
    (analyzeProgram ⟨[.declaration "x" .int (some (.literal (.integer 1) someLoc)) someLoc,
                      .assignment "x" (.literal (.string "hi") someLoc) someLoc]⟩).2
        = .error (.typeErr (some 1) (some 1)) ∧
    (analyzeProgram ⟨[.declaration "y" .float none someLoc,
                      .assignment "y" (.literal (.integer 3) someLoc) someLoc]⟩).2
        = .ok () :=
  ⟨rfl, rfl, rfl, rfl, rfl, rfl, rfl⟩

/-- C7: re-running the full pipeline on identical source text yields byte-identical
assembly: every invocation of `compile` constructs fresh lexer/parser/analyzer/
generator state (label counters and literal tables start from zero), so the result
is a function of the source text alone. -/
theorem c7_pipeline_deterministic (source : List Char) :
    (compileTwice source).1 = (compileTwice source).2 := rfl

/-- C8: `Parser::assignment` is right-associative (it recurses into itself for the
right-hand side, so `a = b = 1` parses as `a = (b = 1)`), and it produces an
assignment expression only when the left-hand side parsed as a bare identifier:
for any other parsed left-hand shape it fails with a syntax error (after parsing
the right-hand side, as the code does). -/
theorem c8_assignment_shape :
    (∀ (fuel : Nat) (st st1 st2 st3 : PState) (expr value : Expression),
      orExpr fuel st = .ok (expr, st1) →
      st1.matchToken .assign = (true, st2) →
      parseAssignment fuel st2 = .ok (value, st3) →
      expr.isIdentifier = false →
      parseAssignment (fuel + 1) st
        = .error (.synErr st3.previous.location.line st3.previous.location.column)) ∧
    (∀ (fuel : Nat) (st st1 st2 st3 : PState) (name : String) (loc : Location)
      (value : Expression),
      orExpr fuel st = .ok (.identifier name loc, st1) →
      st1.matchToken .assign = (true, st2) →
      parseAssignment fuel st2 = .ok (value, st3) →
      parseAssignment (fuel + 1) st
        = .ok (.assignment name value st3.previous.location, st3)) ∧
    parse c8ChainTokens = .ok ⟨[.expression
      (.assignment "a" (.assignment "b" (.literal (.integer 1) ⟨1, 9, 1⟩) ⟨1, 9, 1⟩) ⟨1, 9, 1⟩)
      ⟨1, 9, 1⟩]⟩ := by
  refine ⟨?_, ?_, rfl⟩
  · intro fuel st st1 st2 st3 expr value h1 h2 h3 hid
    simp only [parseAssignment, h1, h2, h3]
    cases expr <;> first
      | rfl
      | (exfalso; simp [Expression.isIdentifier] at hid)
  · intro fuel st st1 st2 st3 name loc value h1 h2 h3
    simp only [parseAssignment, h1, h2, h3]

/-- C8 witness: on `1 = 2;` the left-hand side of `=` parses as an integer
literal, and `assignment` rejects it with a syntax error at the last token of the
(already parsed) right-hand side. -/
theorem c8_assignment_shape_witness :
    parseAssignment 51 ⟨c8BadTokens, 0⟩ = .error (.synErr 1 5) :=
  c8_assignment_shape.1 50 ⟨c8BadTokens, 0⟩ ⟨c8BadTokens, 1⟩ ⟨c8BadTokens, 2⟩ ⟨c8BadTokens, 3⟩
    (.literal (.integer 1) ⟨1, 1, 1⟩) (.literal (.integer 2) ⟨1, 5, 1⟩) rfl rfl rfl rfl

/-- A run whose characters all satisfy `p` is consumed whole by the greedy scan. -/
theorem takeWhileLen_all (p : Char → Bool) : ∀ (l : List Char), (∀ c ∈ l, p c = true) →
    takeWhileLen p l = l.length
  | [], _ => rfl
  | c :: cs, h => by
    unfold takeWhileLen
    rw [if_pos (h c (List.mem_cons_self c cs))]
    rw [takeWhileLen_all p cs (fun x hx => h x (List.mem_cons_of_mem c hx))]
    rfl

/-- `rfind('\n')` on newline-free text is `None`. -/
theorem rfindNl_eq_none : ∀ (l : List Char), (∀ c ∈ l, c ≠ '\n') → rfindNl l = none
  | [], _ => rfl
  | c :: cs, h => by
    unfold rfindNl
    rw [rfindNl_eq_none cs (fun x hx => h x (List.mem_cons_of_mem c hx))]
    rw [if_neg (h c (List.mem_cons_self c cs))]

/-- On an all-digit input the scanner matches the integer rule over the whole
input (no decimal point follows, so the float rule loses). -/
theorem nextLexeme_digits (c : Char) (rest : List Char) (hc : isDigitChar c = true)
    (hall : ∀ x ∈ (c :: rest), isDigitChar x = true) :
    nextLexeme (c :: rest) = .tok (.integer (parseI64 (c :: rest))) (c :: rest).length := by
  have hne : ∀ (ch : Char), isDigitChar ch = false → c ≠ ch := by
    intro ch hch he
    rw [he] at hc
    rw [hc] at hch
    cases hch
  have hws : ¬(isWhitespaceChar c = true) := by
    simp [isWhitespaceChar, hne ' ' (by decide), hne '\t' (by decide), hne '\n' (by decide),
      hne '\x0c' (by decide)]
  have hslash : c ≠ '/' := hne '/' (by decide)
  have hquote : c ≠ '"' := hne '"' (by decide)
  have htw : takeWhileLen isDigitChar (c :: rest) = (c :: rest).length :=
    takeWhileLen_all _ _ hall
  show nextLexemeCons c rest = _
  unfold nextLexemeCons
  rw [if_neg hws]
  rw [if_neg (by simp [hslash])]
  rw [if_neg (by simp [hslash])]
  rw [if_neg (by simp [hquote])]
  rw [if_pos hc]
  rw [htw]
  dsimp only
  rw [List.drop_length, List.take_length]

/-- One scanning step that matches a token. -/
theorem tokenizeAux_step_tok (source : List Char) (pos fuel n : Nat) (t : Token)
    (h : ¬ source.length ≤ pos) (hlex : nextLexeme (source.drop pos) = .tok t n) :
    tokenizeAux source pos (fuel + 1) =
      (match tokenizeAux source (pos + n) fuel with
        | .error e => .error e
        | .ok tail => .ok ((⟨t, locOf source pos n⟩, pos) :: tail)) := by
  conv_lhs => unfold tokenizeAux
  rw [if_neg h, hlex]

/-- The scanning loop ends and appends the end-of-stream token. -/
theorem tokenizeAux_step_eof (source : List Char) (pos fuel : Nat)
    (h : source.length ≤ pos) :
    tokenizeAux source pos (fuel + 1) =
      .ok [(⟨.eof, locOf source source.length 0⟩, source.length)] := by
  unfold tokenizeAux
  rw [if_pos h]

/-- C10: `tokenize` never fails on an out-of-range integer literal: a nonempty
digit sequence whose value exceeds the 64-bit signed maximum lexes successfully to
the single token `Integer(0)` (plus the end-of-stream token) — `parse().unwrap_or(0)`
turns the out-of-range parse error into 0 rather than a lexical error. -/
theorem c10_overflow (ds : List Char) (hne : ds ≠ [])
    (hall : ∀ c ∈ ds, isDigitChar c = true)
    (hbig : digitsToNat ds > i64MaxNat) :
    tokenize ds = .ok [⟨.integer 0, ⟨1, 1, ds.length⟩⟩, ⟨.eof, ⟨1, ds.length + 1, 0⟩⟩] := by
  cases ds with
  | nil => exact absurd rfl hne
  | cons c rest =>
    have hparse : parseI64 (c :: rest) = 0 := by
      unfold parseI64
      rw [if_neg (by omega)]
    have hlex : nextLexeme ((c :: rest).drop 0) = .tok (.integer 0) ((c :: rest).length) := by
      rw [List.drop_zero]
      rw [nextLexeme_digits c rest (hall c (List.mem_cons_self c rest)) hall]
      rw [hparse]
    have hnonl : ∀ x ∈ (c :: rest), x ≠ '\n' := by
      intro x hx he
      have hd := hall x hx
      rw [he] at hd
      cases hd
    have hcount : countNl (c :: rest) = 0 := by
      unfold countNl
      rw [List.count_eq_zero]
      intro hmem
      exact hnonl '\n' hmem rfl
    have hlocEof : locOf (c :: rest) (c :: rest).length 0
        = ⟨1, (c :: rest).length + 1, 0⟩ := by
      unfold locOf
      rw [List.take_length]
      dsimp only
      rw [hcount, rfindNl_eq_none _ hnonl]
    have e1 := tokenizeAux_step_tok (c :: rest) 0 ((c :: rest).length) ((c :: rest).length)
      (.integer 0) (by simp) hlex
    have e2 := tokenizeAux_step_eof (c :: rest) (0 + (c :: rest).length) rest.length
      (by omega)
    unfold tokenize tokenizeSpans
    rw [e1]
    simp only [List.length_cons] at e2 hlocEof ⊢
    rw [e2]
    rw [hlocEof]
    rfl

/-- C10 witness: twenty nines exceed the i64 range and lex to `Integer(0)`. -/
theorem c10_overflow_witness :
    tokenize "99999999999999999999".toList
      = .ok [⟨.integer 0, ⟨1, 1, 20⟩⟩, ⟨.eof, ⟨1, 21, 0⟩⟩] :=
  c10_overflow "99999999999999999999".toList (by decide) (by decide) (by decide)

theorem countNl_cons (c : Char) (cs : List Char) :
    countNl (c :: cs) = countNl cs + (if c = '\n' then 1 else 0) := by
  simp [countNl, List.count_cons]

theorem countNl_eq_length : ∀ (l : List Char), countNl l = (nlPositions l).length
  | [] => rfl
  | c :: cs => by
    rw [countNl_cons]
    unfold nlPositions
    rw [countNl_eq_length cs]
    by_cases hc : c = '\n' <;> simp [hc]

theorem rfindNl_none : ∀ (l : List Char), rfindNl l = none → nlPositions l = []
  | [], _ => rfl
  | c :: cs, h => by
    unfold rfindNl at h
    unfold nlPositions
    cases hr : rfindNl cs with
    | some j => rw [hr] at h; cases h
    | none =>
      rw [hr] at h
      by_cases hc : c = '\n'
      · rw [if_pos hc] at h; cases h
      · rw [if_neg hc, rfindNl_none cs hr]
        rfl

theorem getD_map_succ : ∀ (l : List Nat) (n : Nat), n < l.length →
    (l.map (· + 1)).getD n 0 = l.getD n 0 + 1
  | [], n, h => absurd h (Nat.not_lt_zero n)
  | x :: xs, 0, _ => rfl
  | x :: xs, n + 1, h => getD_map_succ xs n (Nat.lt_of_succ_lt_succ h)

theorem rfindNl_some : ∀ (l : List Char) (i : Nat), rfindNl l = some i →
    0 < (nlPositions l).length ∧
    (nlPositions l).getD ((nlPositions l).length - 1) 0 = i ∧ i < l.length
  | [], i, h => by cases h
  | c :: cs, i, h => by
    unfold rfindNl at h
    unfold nlPositions
    cases hr : rfindNl cs with
    | some j =>
      rw [hr] at h
      have ⟨ih1, ih2, ih3⟩ := rfindNl_some cs j hr
      have hi : i = j + 1 := by cases h; rfl
      subst hi
      by_cases hc : c = '\n'
      · rw [if_pos hc]
        refine ⟨by simp, ?_, by simp; omega⟩
        have hlen : (0 :: (nlPositions cs).map (· + 1)).length - 1
            = ((nlPositions cs).length - 1) + 1 := by simp; omega
        rw [hlen]
        show ((nlPositions cs).map (· + 1)).getD ((nlPositions cs).length - 1) 0 = j + 1
        rw [getD_map_succ _ _ (by omega), ih2]
      · rw [if_neg hc]
        refine ⟨by simp; omega, ?_, by simp; omega⟩
        rw [show ((nlPositions cs).map (· + 1)).length - 1 = (nlPositions cs).length - 1 by simp]
        rw [getD_map_succ _ _ (by omega), ih2]
    | none =>
      rw [hr] at h
      by_cases hc : c = '\n'
      · rw [if_pos hc] at h
        have hi : i = 0 := by cases h; rfl
        subst hi
        rw [if_pos hc, rfindNl_none cs hr]
        exact ⟨by simp, rfl, by simp⟩
      · rw [if_neg hc] at h
        cases h

theorem mapAddAdd : ∀ (z : List Nat) (n : Nat),
    (z.map (· + n)).map (· + 1) = z.map (· + (n + 1))
  | [], _ => rfl
  | x :: xs, n => by
    simp only [List.map_cons, mapAddAdd xs n]
    rfl

theorem nlPositions_append : ∀ (a b : List Char),
    nlPositions (a ++ b) = nlPositions a ++ (nlPositions b).map (· + a.length)
  | [], b => by
    show nlPositions b = nlPositions [] ++ (nlPositions b).map (· + ([] : List Char).length)
    simp [nlPositions]
  | c :: a', b => by
    have ih := nlPositions_append a' b
    generalize hgb : nlPositions b = nb at ih ⊢
    unfold nlPositions
    dsimp only
    show (if c = '\n' then 0 :: (nlPositions (a' ++ b)).map (· + 1)
          else (nlPositions (a' ++ b)).map (· + 1)) = _
    rw [ih]
    by_cases hc : c = '\n'
    · rw [if_pos hc, if_pos hc]
      simp only [List.map_append, mapAddAdd, List.length_cons]
      rfl
    · rw [if_neg hc, if_neg hc]
      simp only [List.map_append, mapAddAdd, List.length_cons]

theorem getD_append_left : ∀ (l1 l2 : List Nat) (n : Nat), n < l1.length →
    (l1 ++ l2).getD n 0 = l1.getD n 0
  | [], _, n, h => absurd h (Nat.not_lt_zero n)
  | x :: xs, l2, 0, _ => rfl
  | x :: xs, l2, n + 1, h => getD_append_left xs l2 n (Nat.lt_of_succ_lt_succ h)

theorem reconstructStart_locOf (source : List Char) (pos len : Nat) (h : pos ≤ source.length) :
    reconstructStart source (locOf source pos len) = pos := by
  have hblen : (source.take pos).length = pos := by
    rw [List.length_take]
    omega
  cases hr : rfindNl (source.take pos) with
  | none =>
    have hloc : locOf source pos len = ⟨countNl (source.take pos) + 1, (source.take pos).length + 1, len⟩ := by
      unfold locOf
      dsimp only
      rw [hr]
    have hcount : countNl (source.take pos) = 0 := by
      rw [countNl_eq_length, rfindNl_none _ hr]
      rfl
    rw [hloc]
    unfold reconstructStart lineStartPos
    dsimp only
    rw [hcount]
    rw [if_pos (by omega : 0 + 1 ≤ 1)]
    omega
  | some idx =>
    have hloc : locOf source pos len = ⟨countNl (source.take pos) + 1, (source.take pos).length - idx, len⟩ := by
      unfold locOf
      dsimp only
      rw [hr]
    have ⟨hpos, hlast, hlt⟩ := rfindNl_some _ idx hr
    have hcount : countNl (source.take pos) = (nlPositions (source.take pos)).length :=
      countNl_eq_length _
    rw [hloc]
    unfold reconstructStart lineStartPos
    dsimp only
    rw [if_neg (by omega : ¬(countNl (source.take pos) + 1 ≤ 1))]
    have happ : nlPositions source
        = nlPositions (source.take pos) ++ (nlPositions (source.drop pos)).map (· + (source.take pos).length) := by
      conv_lhs => rw [← List.take_append_drop pos source]
      exact nlPositions_append _ _
    have hidx : (nlPositions source).getD (countNl (source.take pos) + 1 - 2) 0 = idx := by
      rw [happ, hcount]
      rw [show (nlPositions (source.take pos)).length + 1 - 2
          = (nlPositions (source.take pos)).length - 1 by omega]
      rw [getD_append_left _ _ _ (by omega)]
      exact hlast
    rw [hidx]
    rw [hblen] at hlt ⊢
    omega

theorem tokenizeAux_step_skip (source : List Char) (pos fuel n : Nat)
    (h : ¬ source.length ≤ pos) (hlex : nextLexeme (source.drop pos) = .skip n) :
    tokenizeAux source pos (fuel + 1) = tokenizeAux source (pos + n) fuel := by
  conv_lhs => unfold tokenizeAux
  rw [if_neg h, hlex]

theorem tokenizeAux_mem (source : List Char) :
    ∀ (fuel pos : Nat) (toks : List (TokenInfo × Nat)),
      tokenizeAux source pos fuel = .ok toks →
      ∀ ti start, (ti, start) ∈ toks →
        start ≤ source.length ∧ ti.location = locOf source start ti.location.length
  | 0, pos, toks, h => by
    unfold tokenizeAux at h
    exact Except.noConfusion h
  | fuel + 1, pos, toks, h => by
    by_cases hle : source.length ≤ pos
    · rw [tokenizeAux_step_eof source pos fuel hle] at h
      injection h with h
      subst h
      intro ti start hmem
      rw [List.mem_singleton] at hmem
      have h1 : ti = ⟨.eof, locOf source source.length 0⟩ := congrArg Prod.fst hmem
      have h2 : start = source.length := congrArg Prod.snd hmem
      subst h1; subst h2
      exact ⟨Nat.le_refl _, rfl⟩
    · cases hnl : nextLexeme (source.drop pos) with
      | skip n =>
        rw [tokenizeAux_step_skip source pos fuel n hle hnl] at h
        exact tokenizeAux_mem source fuel (pos + n) toks h
      | tok t n =>
        rw [tokenizeAux_step_tok source pos fuel n t hle hnl] at h
        cases hrec : tokenizeAux source (pos + n) fuel with
        | error e => rw [hrec] at h; exact Except.noConfusion h
        | ok tail =>
          rw [hrec] at h
          injection h with h
          subst h
          intro ti start hmem
          rw [List.mem_cons] at hmem
          cases hmem with
          | inl hmem =>
            have h1 : ti = ⟨t, locOf source pos n⟩ := congrArg Prod.fst hmem
            have h2 : start = pos := congrArg Prod.snd hmem
            subst h1; subst h2
            exact ⟨by omega, rfl⟩
          | inr hmem =>
            exact tokenizeAux_mem source fuel (pos + n) tail hrec ti start hmem
      | err =>
        conv at h => lhs; unfold tokenizeAux
        rw [if_neg hle, hnl] at h
        exact Except.noConfusion h

/-- C5: round-trip of token locations. For every source text on which the lexer
succeeds and every token it produces (at recorded starting byte offset `start`),
mapping the token's `Location` (1-based line, 1-based column, byte length) back to a
byte offset recovers exactly `start`, and the reconstructed byte span reproduces the
original source slice of that token. -/
theorem c5_token_location_roundtrip (source : List Char) (toks : List (TokenInfo × Nat))
    (h : tokenizeSpans source = .ok toks) :
    ∀ ti start, (ti, start) ∈ toks →
      reconstructStart source ti.location = start ∧
      reconstructSlice source ti.location = (source.drop start).take ti.location.length := by
  intro ti start hmem
  have hinv := tokenizeAux_mem source (source.length + 1) 0 toks h ti start hmem
  have hrs : reconstructStart source ti.location = start := by
    rw [hinv.2]
    exact reconstructStart_locOf source start ti.location.length hinv.1
  refine ⟨hrs, ?_⟩
  unfold reconstructSlice
  rw [hrs]

/-- C5 witness: on the two-line source `"a\nb"`, the token `b` (line 2, column 1,
length 1) reconstructs to starting offset 2 and to the slice `['b']`. -/
theorem c5_token_location_roundtrip_witness :
    tokenizeSpans "a\nb".toList
      = .ok [(⟨.identifier "a", ⟨1, 1, 1⟩⟩, 0), (⟨.identifier "b", ⟨2, 1, 1⟩⟩, 2),
             (⟨.eof, ⟨2, 2, 0⟩⟩, 3)] ∧
    reconstructStart "a\nb".toList (⟨2, 1, 1⟩ : Location) = 2 ∧
    reconstructSlice "a\nb".toList (⟨2, 1, 1⟩ : Location)
      = ("a\nb".toList.drop 2).take 1 := by
  refine ⟨rfl, ?_⟩
  exact c5_token_location_roundtrip "a\nb".toList _ rfl
    ⟨.identifier "b", ⟨2, 1, 1⟩⟩ 2
    (List.mem_cons_of_mem _ (List.mem_cons_self _ _))

end RusCompile
